import Mathlib

/-!
Verification of the repESP core against its natural-language specification.

This file shallowly embeds the parts of the repESP sources that the checked
properties are about: the volumetric grid model (`cube_helpers.py`: `Grid`,
`GridAxis`, `Atom`, basin voting, the cube writer and parser), the charge
extraction engine (`charges.py`) and the RESP equivalence resolver
(`resp.py`).  Python floats are idealized as rationals, Python lists as Lean
lists, raised exceptions as `Except` errors, and Python `None` as `Option`.
Definitions follow the source files; each embedded definition names the
Python function it translates.
-/

deriving instance DecidableEq for Except

namespace RepESP

/-- Conversion constant `angstrom_per_bohr = 0.5291772086` (cube_helpers.py line 10). -/
def angstrom_per_bohr : ℚ := 5291772086 / 10 ^ 10

/-- Python list indexing `l[i]` with negative-index wrap-around
(`l[-k]` is `l[len l - k]`); `none` models an `IndexError`. -/
def pyGet {α : Type} (l : List α) (i : ℤ) : Option α :=
  if 0 ≤ i then l.get? i.toNat
  else if (-i).toNat ≤ l.length then l.get? (l.length - (-i).toNat) else none

/-! ## Grid geometry (cube_helpers.py, `Grid` / `GridAxis`) -/

/-- Error taxonomy for `GridError` raising sites of `Grid`/`GridAxis`. -/
inductive GridErr
  | badShape
  | nonIntegerPointCount
  | notAligned
  | nvalNotOne
  | fieldSizeMismatch
  deriving DecidableEq, Repr

/-- State of a `GridAxis` (cube_helpers.py) after `set_point_count` and
`set_intervals` have run. -/
structure GridAxis where
  point_count : ℤ
  intervals : List ℚ
  dir_interval : ℚ
  deriving DecidableEq, Repr

/-- Embeds `GridAxis.set_point_count`: the check `int(point_count) !=
float(point_count)` rejects exactly the non-integral values. -/
def set_point_count (pc : ℚ) : Except GridErr ℤ :=
  if pc.den = 1 then .ok pc.num else .error .nonIntegerPointCount

/-- Embeds the loop of `GridAxis.set_intervals`: unit conversion of each
interval component, recording of the `dir_interval` (the component whose
direction index `d` equals the axis number), and the per-axis alignment flag,
which is cleared by any nonzero off-diagonal component.  Returns the
converted intervals, the recorded `dir_interval` and the flag. -/
def set_intervals (axisNumber : ℕ) (coordsInBohr : Bool) :
    ℕ → List ℚ → List ℚ × Option ℚ × Bool
  | _, [] => ([], none, true)
  | d, q :: rest =>
    let interval := if coordsInBohr then q * angstrom_per_bohr else q
    let r := set_intervals axisNumber coordsInBohr (d + 1) rest
    (interval :: r.1,
     (if d = axisNumber then some interval else r.2.1),
     (decide (d = axisNumber) || decide (interval = 0)) && r.2.2)

/-- Embeds `Grid._add_axis`: `input_axis.pop(0)` is the point count and the
remaining three entries are the interval components. -/
def add_axis (axisNumber : ℕ) (coordsInBohr : Bool) (inputAxis : List ℚ) :
    Except GridErr (GridAxis × Bool) :=
  match inputAxis with
  | [] => .error .badShape
  | pc :: ivs => do
    let pcount ← set_point_count pc
    let r := set_intervals axisNumber coordsInBohr 0 ivs
    .ok (⟨pcount, r.1, (r.2.1).getD 0⟩, r.2.2)

/-- Embeds the axis loop of `Grid.__init__`: the axes are processed in order
and the grid alignment flag is the conjunction of the per-axis flags. -/
def add_axes (coordsInBohr : Bool) : ℕ → List (List ℚ) →
    Except GridErr (List GridAxis × Bool)
  | _, [] => .ok ([], true)
  | n, row :: rest => do
    let (axis, alignedAxis) ← add_axis n coordsInBohr row
    let (axes, alignedRest) ← add_axes coordsInBohr (n + 1) rest
    .ok (axis :: axes, alignedAxis && alignedRest)

/-- State of a `Grid` (cube_helpers.py) as built by a *successful*
`Grid.__init__`; `origin_coords` is populated separately by `Cube.__init__`. -/
structure Grid where
  axes : List GridAxis
  aligned_to_coord : Bool
  dir_intervals : List ℚ
  points_on_axes : List ℤ
  origin_coords : List ℚ
  deriving DecidableEq, Repr

/-- Embeds `Grid.__init__` (cube_helpers.py lines 411-435): the 3x4 shape
check, the per-axis processing, and — crucially — the source *raises*
`GridError('The cube is not aligned with coordinate system.')` when the
conjunction of the per-axis alignment flags is false, so a non-aligned grid
is never returned. -/
def mkGrid (gridInput : List (List ℚ)) (coordsInBohr : Bool) :
    Except GridErr Grid := do
  if gridInput.length = 3 ∧ ∀ row ∈ gridInput, row.length = 4 then
    let (axes, aligned) ← add_axes coordsInBohr 0 gridInput
    if aligned then
      .ok { axes := axes
            aligned_to_coord := aligned
            dir_intervals := axes.map GridAxis.dir_interval
            points_on_axes := axes.map GridAxis.point_count
            origin_coords := [] }
    else .error .notAligned
  else .error .badShape

/-- Computes only the alignment flag that `Grid.__init__` derives for a given
geometry input — the conjunction over all axes of "every off-diagonal
interval component is zero" — without the final raise. -/
def grid_alignment_flag (gridInput : List (List ℚ)) (coordsInBohr : Bool) : Bool :=
  match add_axes coordsInBohr 0 gridInput with
  | .ok (_, aligned) => aligned
  | .error _ => false

/-- Embeds `GridField.distance_transform` (cube_helpers.py lines 345-361) up
to the call of the external `scipy` Euclidean-distance routine: the gate
raising `GridError` for a grid not aligned to the coordinate system, and the
`select_iso` binarization of the values (1 below the isovalue, 0 elsewhere).
The distance computation itself is delegated to `scipy` and is outside the
embedded core; the returned binarized field witnesses that the computation
proceeded past the gate. -/
def distance_transform_binarized (grid : Grid) (isovalue : ℚ) (values : List ℚ) :
    Except GridErr (List ℚ) :=
  if grid.aligned_to_coord then
    .ok (values.map (fun x => if x < isovalue then 1 else 0))
  else .error .notAligned

/-! ## Atom identity (cube_helpers.py, `Atom`) -/

/-- Periodic table `Atom.periodic`, including its final sentinel entry. -/
def periodic : List (String × String) :=
  [("H", "Hydrogen"),
   ("He", "Helium"),
   ("Li", "Lithium"),
   ("Be", "Beryllium"),
   ("B", "Boron"),
   ("C", "Carbon"),
   ("N", "Nitrogen"),
   ("O", "Oxygen"),
   ("F", "Fluorine"),
   ("Ne", "Neon"),
   ("Na", "Sodium"),
   ("Mg", "Magnesium"),
   ("Al", "Aluminum"),
   ("Si", "Silicon"),
   ("P", "Phosphorus"),
   ("S", "Sulfur"),
   ("Cl", "Chlorine"),
   ("Ar", "Argon"),
   ("XX", "Unrecognized")]

/-- Embeds the identity lookup of `Atom.__init__`: Python indexing
`Atom.periodic[atomic_no - 1]` (including negative wrap-around) with the
`IndexError` fallback to `str(atomic_no)` plus a printed warning.  The second
component records whether the warning fired. -/
def atom_identity (atomic_no : ℤ) : String × Bool :=
  match pyGet periodic (atomic_no - 1) with
  | some entry => (entry.1, false)
  | none => (toString atomic_no, true)

/-- Error raised by `Atom.__init__` when coordinates are supplied without the
`coords_in_bohr` unit flag. -/
inductive AtomErr
  | valueError
  deriving DecidableEq, Repr

/-- State of an `Atom` (cube_helpers.py). -/
structure Atom where
  label : ℤ
  atomic_no : ℤ
  identity : String
  charges : List (String × ℚ) := []
  coords : Option (List ℚ) := none
  deriving DecidableEq, Repr

/-- Embeds `Atom.__init__`: the identity is computed from `atomic_no` alone
and never raises; a `ValueError` occurs only when coordinates are given
without units; coordinates are unit-converted when given in bohr. -/
def mkAtom (label : ℤ) (atomic_no : ℤ) (coords : Option (List ℚ))
    (coordsInBohr : Option Bool) : Except AtomErr Atom :=
  match coords with
  | none => .ok ⟨label, atomic_no, (atom_identity atomic_no).1, [], none⟩
  | some cs =>
    match coordsInBohr with
    | none => .error .valueError
    | some b => .ok ⟨label, atomic_no, (atom_identity atomic_no).1, [],
        some (if b then cs.map (fun c => angstrom_per_bohr * c) else cs)⟩

/-! ## Basin voting (cube_helpers.py, `Molecule.extract_qtaim_basins`) -/

/-- Error taxonomy for the two `InputFormatError` raising sites of the voting
loop in `extract_qtaim_basins`: a point assigned to no atom, and a point
assigned to more than one atom. -/
inductive BasinErr
  | unassignedPoint
  | manyAtomsPoint
  deriving DecidableEq, Repr

/-- Python truthiness of a numeric cube value (`True if elem else False`). -/
def truthy (q : ℚ) : Bool := decide (q ≠ 0)

/-- Embeds one iteration of the voting loop in `extract_qtaim_basins`
(cube_helpers.py lines 252-262): a point with no truthy source raises the
unassigned-point error, one with several truthy sources raises the
inconsistent-assignment error, and otherwise the label is the index of the
unique truthy source plus one (`point_bool.index(True) + 1`). -/
def vote_point (point : List ℚ) : Except BasinErr ℕ :=
  let point_bool := point.map truthy
  if point_bool.count true = 0 then .error .unassignedPoint
  else if 1 < point_bool.count true then .error .manyAtomsPoint
  else .ok (point_bool.indexOf true + 1)

/-- Embeds Python's `zip(*fields)` over the flattened per-cube value arrays:
element-wise tuples truncated at the shortest array; `zip()` of no arguments
yields nothing. -/
def py_zip_all (fields : List (List ℚ)) : List (List ℚ) :=
  match fields with
  | [] => []
  | f :: fs =>
    (List.range (List.foldl (fun m l => min m l.length) f.length fs)).map
      (fun i => (f :: fs).map (fun l => l.getD i 0))

/-- Embeds the voting part of `Molecule.extract_qtaim_basins`: the cubes'
value arrays are iterated element-wise and every point is labelled, raising
at the first offending point.  The discovery of the `bader` output files and
the grid-equality checks precede this part in the source; they are modelled
by taking the per-atom fields as given. -/
def extract_qtaim_basins_vote (fields : List (List ℚ)) :
    Except BasinErr (List ℕ) :=
  (py_zip_all fields).mapM vote_point

/-! ## RESP equivalence resolution (resp.py) -/

/-- Sentinel `unset_charge = 42` (resp.py line 14). -/
def unset_charge : ℚ := 42

/-- Embeds `charges_from_dict` (resp.py lines 391-417): position `i`
(0-based) receives the dictionary entry under label `i+1` when present and
the `unset_charge` sentinel otherwise.  The Python dictionary is modelled as
a lookup function. -/
def charges_from_dict (charge_dict : ℤ → Option ℚ) (len_molecule : ℕ) :
    List ℚ :=
  (List.range len_molecule).map (fun (i : ℕ) =>
    match charge_dict ((i : ℤ) + 1) with
    | some c => c
    | none => unset_charge)

/-- Error taxonomy for the raising sites of `_modify_ivary_list` and
`equivalence` in resp.py. -/
inductive RespErr
  | valueError
  | notImplemented
  | indexError
  | keyError
  deriving DecidableEq, Repr

/-- Embeds the body of the per-atom loop of `_modify_ivary_list` (resp.py
lines 324-344): the stage values are merged with `max` for the implemented
resp types (equivalence beats free fitting beats freezing), type `'h'`
additionally freezes non-hydrogens, and type `'d'` freezes every atom whose
input charge differs from the `unset_charge` sentinel. -/
def modify_ivary_one (resp_type : String) (atomic_no : ℤ) (ivary1 ivary2 : ℤ)
    (inp_charge : Option ℚ) : Except RespErr ℤ := do
  let ivary ←
    if resp_type = "h" ∨ resp_type = "u" ∨ resp_type = "d" ∨ resp_type = "e"
    then pure (max ivary1 ivary2)
    else .error .notImplemented
  let ivary := if resp_type = "h" then
      (if atomic_no = 1 then ivary else -1) else ivary
  let ivary := if resp_type = "d" then
      (if inp_charge = some unset_charge then ivary else -1) else ivary
  pure ivary

/-- Embeds `_modify_ivary_list` (resp.py lines 314-345): the `ValueError`
when `resp_type='d'` comes without input charges, the replacement of missing
charges by `None`, and the zipped per-atom loop (Python `zip` truncates to
the shortest argument). -/
def modify_ivary_list (resp_type : String) (molecule : List Atom)
    (ivary_list1 ivary_list2 : List ℤ) (inp_charges : Option (List ℚ)) :
    Except RespErr (List ℤ) := do
  let inp : List (Option ℚ) ←
    match inp_charges with
    | none =>
      if resp_type = "d" then .error .valueError
      else pure (List.replicate molecule.length none)
    | some cs => pure (cs.map some)
  (((molecule.zip ivary_list1).zip ivary_list2).zip inp).mapM
    (fun x => modify_ivary_one resp_type x.1.1.1.atomic_no x.1.1.2 x.1.2 x.2)

/-- Python list element assignment `l[i] = a` with negative-index
wrap-around; `none` models an `IndexError`. -/
def pySet {α : Type} (l : List α) (i : ℤ) (a : α) : Option (List α) :=
  if 0 ≤ i then (if i.toNat < l.length then some (l.set i.toNat a) else none)
  else if (-i).toNat ≤ l.length then some (l.set (l.length - (-i).toNat) a)
  else none

/-- Embeds the `reffed_by` construction of `equivalence` (resp.py lines
434-438): starting from `len(ivary_list)` empty lists, every atom `i`
(0-based) with a truthy (nonzero) combined ivary appends its 1-based label
`i+1` to the list at Python index `ivary - 1`. -/
def build_reffed_by_aux : List (List ℤ) → ℕ → List ℤ →
    Except RespErr (List (List ℤ))
  | acc, _, [] => .ok acc
  | acc, i, elem :: rest =>
    if elem ≠ 0 then
      match pyGet acc (elem - 1) with
      | none => .error .indexError
      | some cur =>
        match pySet acc (elem - 1) (cur ++ [(i : ℤ) + 1]) with
        | none => .error .indexError
        | some acc2 => build_reffed_by_aux acc2 (i + 1) rest
    else build_reffed_by_aux acc (i + 1) rest

/-- Referenced-by lists of `equivalence`, built from the combined ivary list. -/
def build_reffed_by (ivary_list : List ℤ) : Except RespErr (List (List ℤ)) :=
  build_reffed_by_aux (List.replicate ivary_list.length []) 0 ivary_list

/-- Embeds the depth-2 reference condition of `equivalence` (resp.py lines
441-451): some atom appearing in a referenced-by list has a nonempty
referenced-by list of its own.  When this holds the source raises
`NotImplementedError` before resolving any charge.  Entries of the
referenced-by lists are 1-based labels produced by `build_reffed_by`, so the
inner lookup is always in range. -/
def has_deep_reference (reffed_by : List (List ℤ)) : Bool :=
  reffed_by.any (fun refs => refs.any (fun ref =>
    match pyGet reffed_by (ref - 1) with
    | some l => !l.isEmpty
    | none => false))

/-- Arithmetic mean (`np.mean`) of a list of rationals. -/
def list_mean (l : List ℚ) : ℚ := l.sum / l.length

/-- Embeds the first resolution loop of `equivalence` (resp.py lines
453-460): an atom with referrers gets the mean of the referrers' input
charges together with its own input charge appended; all other entries stay
`None`.  The labels in `reffed_by` come from `build_reffed_by` and are in
range of `inp_charges` whenever the charge list matches the ivary list in
length, which the source guarantees through its molecule-consistency checks;
the `getD` defaults are never reached then. -/
def equivalence_avg (reffed_by : List (List ℤ)) (inp_charges : List ℚ) :
    List (Option ℚ) :=
  reffed_by.enum.map (fun x =>
    if x.2 ≠ [] then
      some (list_mean ((x.2.map (fun ref => (pyGet inp_charges (ref - 1)).getD 0))
        ++ [(pyGet inp_charges (x.1 : ℤ)).getD 0]))
    else none)

/-- Embeds the second resolution loop of `equivalence` (resp.py lines
463-470): a missing entry is filled with the atom's own input charge when its
combined ivary is zero, and otherwise with the (first-loop) entry of the atom
it references — one indirection, with Python indexing. -/
def equivalence_fill (result : List (Option ℚ)) (ivary_list : List ℤ)
    (inp_charges : List ℚ) : Except RespErr (List (Option ℚ)) :=
  result.enum.mapM (fun x =>
    match x.2 with
    | some v => pure (some v)
    | none =>
      match pyGet ivary_list (x.1 : ℤ) with
      | none => .error .indexError
      | some iv =>
        if iv = 0 then
          match pyGet inp_charges (x.1 : ℤ) with
          | none => .error .indexError
          | some c => pure (some c)
        else
          match pyGet result (iv - 1) with
          | none => .error .indexError
          | some e => pure e)

/-- Embeds the body of `equivalence` (resp.py lines 420-471) after the two
`.respin` files have been read: builds the referenced-by lists from the
combined ivary list, rejects chained references with `NotImplementedError`,
averages the referenced atoms and fills in the remaining ones. -/
def equivalence_core (ivary_list : List ℤ) (inp_charges : List ℚ) :
    Except RespErr (List (Option ℚ)) := do
  let reffed_by ← build_reffed_by ivary_list
  if has_deep_reference reffed_by then .error .notImplemented
  else
    equivalence_fill (equivalence_avg reffed_by inp_charges) ivary_list
      inp_charges

/-- Embeds `equivalence` (resp.py): the two stage ivary lists are merged via
`_modify_ivary_list('e', ...)`, the input charges are looked up in the
atoms' charge maps under the requested type, and the core resolution runs. -/
def equivalence (molecule : List Atom) (charge_type : String)
    (ivary_list1 ivary_list2 : List ℤ) : Except RespErr (List (Option ℚ)) := do
  let ivary_list ← modify_ivary_list "e" molecule ivary_list1 ivary_list2 none
  let inp_charges ← molecule.mapM (fun a =>
    match a.charges.lookup charge_type with
    | some c => pure c
    | none => Except.error RespErr.keyError)
  equivalence_core ivary_list inp_charges

/-! ## Charge extraction (charges.py) -/

/-- Splitting of a character list on whitespace runs, the workhorse of
Python's `str.split()`; the second argument accumulates the current word in
reverse. -/
def pyWordsChars : List Char → List Char → List (List Char)
  | [], cur => if cur = [] then [] else [cur.reverse]
  | c :: cs, cur =>
    if c.isWhitespace then
      (if cur = [] then pyWordsChars cs [] else cur.reverse :: pyWordsChars cs [])
    else pyWordsChars cs (c :: cur)

/-- Python `str.split()` with no arguments: split on whitespace runs,
discarding empty fields. -/
def pyWords (s : String) : List String :=
  (pyWordsChars s.toList []).map String.mk

/-- Removal of trailing characters satisfying a predicate. -/
def dropRightWhileChars (p : Char → Bool) (cs : List Char) : List Char :=
  (cs.reverse.dropWhile p).reverse

/-- Python `str.rstrip('\n')`: removal of trailing newline characters. -/
def pyRstripNl (s : String) : String :=
  String.mk (dropRightWhileChars (fun c => c = '\n') s.toList)

/-- Python `str.rstrip()`: removal of trailing whitespace. -/
def pyRstrip (s : String) : String :=
  String.mk (dropRightWhileChars Char.isWhitespace s.toList)

/-- Digit-string value; `none` on any non-digit character or an empty string. -/
def parseNatDigits (cs : List Char) : Option ℕ :=
  if cs.isEmpty then none
  else cs.foldlM
    (fun acc c => if c.isDigit then some (acc * 10 + (c.toNat - 48)) else none) 0

/-- Python `int()` on a stripped token: optional sign, then digits only. -/
def parseIntChars : List Char → Option ℤ
  | '-' :: rest => (parseNatDigits rest).map (fun v => -(v : ℤ))
  | '+' :: rest => (parseNatDigits rest).map (fun v => (v : ℤ))
  | cs => (parseNatDigits cs).map (fun v => (v : ℤ))

/-- Splitting of a character list at every occurrence of a separator, empty
pieces kept — Python's `str.split(sep)`. -/
def splitOnChar (sep : Char) : List Char → List Char → List (List Char)
  | [], cur => [cur.reverse]
  | c :: cs, cur =>
    if c = sep then cur.reverse :: splitOnChar sep cs []
    else splitOnChar sep cs (c :: cur)

/-- Parses a decimal floating literal (optional sign, integer digits,
optional fractional digits, optional exponent) into the exact rational it
denotes; `none` models the `ValueError` of Python's `float()`.  The binary
floating-point values of the source are idealized as rationals throughout. -/
def parseRat (s : String) : Option ℚ := do
  let (neg, body) :=
    match s.toList with
    | '-' :: rest => (true, rest)
    | '+' :: rest => (false, rest)
    | _ => (false, s.toList)
  let up := body.map Char.toUpper
  let (mant, expVal) ←
    match splitOnChar 'E' up [] with
    | [m] => some (m, (0 : ℤ))
    | [m, e] => (parseIntChars e).map (fun ev => (m, ev))
    | _ => none
  let (ip, fp) ←
    match splitOnChar '.' mant [] with
    | [i] => if i = [] then none else some (i, ([] : List Char))
    | [i, f] => if i = [] ∧ f = [] then none else some (i, f)
    | _ => none
  let ipn ← if ip = [] then some 0 else parseNatDigits ip
  let fpn ← if fp = [] then some 0 else parseNatDigits fp
  let mag : ℚ := ((ipn : ℚ) + (fpn : ℚ) / 10 ^ fp.length) * (10 : ℚ) ^ expVal
  some (if neg then -mag else mag)

/-- Variant marker table `esp_type_in_log` (charges.py lines 4-8). -/
def esp_type_in_log : List (String × String) :=
  [(" Merz-Kollman atomic radii used.", "mk"),
   (" Francl (CHELP) atomic radii used.", "chelp"),
   (" Breneman (CHELPG) radii used.", "chelpg")]

/-- The ESP-like charge kinds, `esp_type_in_log.values()`. -/
def esp_charges : List String := esp_type_in_log.map Prod.snd

/-- Value type of the `charge_termination_line` dictionary (charges.py lines
14-17): for `'sumviz'` the value is a *string*, for `'log'` a tuple of
strings; Python's `in` operator means substring containment for the former
and element membership for the latter. -/
inductive TermLines
  | str (s : String)
  | tup (ss : List String)
  deriving DecidableEq, Repr

/-- The `charge_termination_line` dictionary itself; `none` models the
`KeyError` for an unknown input type. -/
def charge_termination_line (input_type : String) : Option TermLines :=
  if input_type = "sumviz" then some (.str "--------")
  else if input_type = "log" then some (.tup [" Sum of ", " ======="])
  else none

/-- Contiguous-substring containment on character lists, Python's `x in s`
for strings. -/
def py_substr (x : List Char) : List Char → Bool
  | [] => x.isEmpty
  | c :: tail => x.isPrefixOf (c :: tail) || py_substr x tail

/-- Python's `x in y` for a looked-up termination value: substring
containment when the value is a string, element membership when it is a
tuple. -/
def py_in_term (x : String) : TermLines → Bool
  | .str s => py_substr x.toList s.toList
  | .tup ss => ss.contains x

/-- Error taxonomy for charges.py: the `InputFormatError` sites (with their
distinguishing message payloads), the re-raised `IndexError` of
`_goto_in_log`, the `NotImplementedError` sites, and the Python-level errors
reachable in the line parsers. -/
inductive ChargesErr
  | espTypeNotRecognized
  | chargeTypeNotFound (charge_type : String)
  | indexError
  | notImplementedChargeType (charge_type : String)
  | notImplementedInputType (input_type : String)
  | chargesNotInOrder
  | identityMismatch (reported_atom : ℤ) (list_identity : String) (found : String)
  | badTermination (expected : TermLines) (found : String)
  | valueError
  | typeError
  | keyError
  deriving DecidableEq, Repr

/-- Embeds `_charge_section_header_in_log` (charges.py lines 115-124). -/
def charge_section_header_in_log (charge_type : String) :
    Except ChargesErr String :=
  if charge_type = "mulliken" then .ok " Mulliken charges:"
  else if esp_charges.contains charge_type then .ok " ESP charges:"
  else if charge_type = "nbo" then
    .ok " Summary of Natural Population Analysis:"
  else .error (.notImplementedChargeType charge_type)

/-- Scan state of `_goto_in_log`: the running byte offset, the recorded
header offsets (`result`) and the recorded ESP variant tags (`esp_types`). -/
structure LogScanState where
  offset : ℕ
  result : List ℕ
  esp_types : List String
  deriving DecidableEq, Repr

/-- Embeds one iteration of the scanning loop of `_goto_in_log` (charges.py
lines 67-76): the offset advances by the raw line length *before* the
comparisons, so a matching generic header line records the offset just after
itself; a line equal to an ESP variant marker (when an ESP charge type is
requested) records the variant tag. -/
def goto_in_log_step (charge_type header : String) (st : LogScanState)
    (line : String) : LogScanState :=
  let offset := st.offset + line.length
  let stripped := pyRstripNl line
  let result :=
    if pyRstrip stripped = header then st.result ++ [offset] else st.result
  let esp_types :=
    if esp_charges.contains charge_type then
      match esp_type_in_log.lookup stripped with
      | some t => st.esp_types ++ [t]
      | none => st.esp_types
    else st.esp_types
  ⟨offset, result, esp_types⟩

/-- The full scan of `_goto_in_log` over the file, given as its raw lines
(each including its trailing newline character). -/
def goto_in_log_scan (charge_type header : String) (lines : List String) :
    LogScanState :=
  lines.foldl (goto_in_log_step charge_type header) ⟨0, [], []⟩

/-- Embeds `_goto_in_log` (charges.py lines 56-104): scan, the
header/marker count consistency check for ESP kinds, the filtering of the
offsets by the requested variant, the not-found error, and the occurrence
selection with Python index semantics (negative means from the end; out of
range is the re-raised `IndexError`).  Returns the chosen byte offset and
the number of lines skipped afterwards (1, or 5 for `'nbo'`). -/
def goto_in_log (charge_type : String) (lines : List String) (occurence : ℤ) :
    Except ChargesErr (ℕ × ℕ) := do
  let header ← charge_section_header_in_log charge_type
  let st := goto_in_log_scan charge_type header lines
  let result ←
    if esp_charges.contains charge_type then
      if st.esp_types.length ≠ st.result.length then
        .error .espTypeNotRecognized
      else
        pure (((st.result.zip st.esp_types).filter
          (fun p => p.2 = charge_type)).map Prod.fst)
    else pure st.result
  if result = [] then .error (.chargeTypeNotFound charge_type)
  else
    match pyGet result occurence with
    | none => .error .indexError
    | some off => pure (off, if charge_type = "nbo" then 5 else 1)

/-- Embeds `_log_charge_line` (charges.py lines 132-139): whitespace
splitting, the tuple unpacking (a `ValueError` when the field count does not
fit), and the `int` and `float` conversions. -/
def log_charge_line (line : String) (charge_type : String) :
    Except ChargesErr (Option ℤ × String × ℚ) := do
  let (labelStr, letter, chargeStr) ←
    if charge_type = "nbo" then
      match pyWords line with
      | letter :: label :: charge :: _ => pure (label, letter, charge)
      | _ => Except.error ChargesErr.valueError
    else
      match pyWords line with
      | [label, letter, charge] => pure (label, letter, charge)
      | _ => Except.error ChargesErr.valueError
  let label ← match parseIntChars labelStr.toList with
    | some v => pure v
    | none => Except.error ChargesErr.valueError
  let charge ← match parseRat chargeStr with
    | some v => pure v
    | none => Except.error ChargesErr.valueError
  pure (some label, letter, charge)

/-- Embeds `_sumviz_charge_line` (charges.py lines 142-148): the first token
combines symbol and label; the source takes its first character as the
symbol and only its *second* character as the label. -/
def sumviz_charge_line (line : String) (charge_type : String) :
    Except ChargesErr (Option ℤ × String × ℚ) := do
  match pyWords line with
  | letter_and_label :: chargeStr :: _ => do
    let letter ← match letter_and_label.toList.get? 0 with
      | some c => pure (String.mk [c])
      | none => Except.error ChargesErr.indexError
    let labelChar ← match letter_and_label.toList.get? 1 with
      | some c => pure (String.mk [c])
      | none => Except.error ChargesErr.indexError
    let label ← match parseIntChars labelChar.toList with
      | some v => pure v
      | none => Except.error ChargesErr.valueError
    let charge ← match parseRat chargeStr with
      | some v => pure v
      | none => Except.error ChargesErr.valueError
    pure (some label, letter, charge)
  | _ => .error .valueError

/-- Dispatch of the type-specific line parser (`globals()['_' + input_type +
'_charge_line']`, with the `KeyError` caught and re-raised as
`NotImplementedError`). -/
def charge_line_of_type (input_type : String) (line : String)
    (charge_type : String) : Except ChargesErr (Option ℤ × String × ℚ) :=
  if input_type = "log" then log_charge_line line charge_type
  else if input_type = "sumviz" then sumviz_charge_line line charge_type
  else .error (.notImplementedInputType input_type)

/-- One `readline` on a stream modelled as its remaining lines: at end of
file Python returns the empty string. -/
def py_readline (lines : List String) : String × List String :=
  match lines with
  | [] => ("", [])
  | l :: rest => (l, rest)

/-- Embeds the row loop of `_get_charges_from_lines` (charges.py lines
182-206): for each atom of the molecule one line is read and parsed; a
parsed label different from `i+1` raises the atom-ordering format error; a
parsed symbol different from the atom's identity raises the
identity-mismatch error whose message reports atom number `int(label) + 1`,
the identity from the atom list and the symbol found.  Either error aborts
with the remaining lines unconsumed. -/
def get_charges_aux (charge_type input_type : String) :
    List Atom → ℕ → List String → List ℚ →
    Except ChargesErr (List ℚ × List String)
  | [], _, lines, acc => .ok (acc, lines)
  | atom :: rest, i, lines, acc => do
    let (line, lines) := py_readline lines
    let (label, letter, charge) ← charge_line_of_type input_type line charge_type
    if label ≠ none ∧ label ≠ some ((i : ℤ) + 1) then
      .error .chargesNotInOrder
    else if letter ≠ atom.identity then
      match label with
      | some l => .error (.identityMismatch (l + 1) atom.identity letter)
      | none => .error .typeError
    else
      get_charges_aux charge_type input_type rest (i + 1) lines (acc ++ [charge])

/-- Termination acceptance of `_get_charges_from_lines` in isolation: the
first 8 characters of the line following the data rows, tested with Python's
`in` against the termination value of the input type (charges.py lines
210-216); `none` models the `KeyError` for an unknown input type. -/
def termination_ok (input_type : String) (next_line : String) : Option Bool :=
  (charge_termination_line input_type).map
    (py_in_term (String.mk (next_line.toList.take 8)))

/-- Embeds `_get_charges_from_lines` (charges.py lines 151-218): the row
loop followed by the terminator check on one further line. -/
def get_charges_from_lines (charge_type : String) (lines : List String)
    (input_type : String) (molecule : List Atom) :
    Except ChargesErr (List ℚ) := do
  let (charges, rest) ← get_charges_aux charge_type input_type molecule 0 lines []
  let (next_line, _) := py_readline rest
  match charge_termination_line input_type with
  | none => .error .keyError
  | some term =>
    if py_in_term (String.mk (next_line.toList.take 8)) term then
      pure charges
    else .error (.badTermination term (String.mk (next_line.toList.take 8)))

/-! ## Cube serialization and re-parsing (cube_helpers.py,
`GridField.write_cube` and `Cube.__init__`) -/

/-- Value denoted by Python's fixed-point format `'{: .6f}'` applied to a
number: the number rounded to six decimal places.  The half-ulp rounding of
the decimal rendering is modelled by `round` on rationals. -/
def fmtFix6 (q : ℚ) : ℚ := round (q * 10 ^ 6) / 10 ^ 6

/-- Value denoted by Python's scientific format `'{0: .5E}'`: the number
rounded to a six-significant-digit decimal mantissa at its own decimal
exponent, with the sign carried separately. -/
def fmtSci5 (q : ℚ) : ℚ :=
  if q = 0 then 0
  else
    let a := |q|
    let e : ℤ := Int.log 10 a
    let m := round (a / (10 : ℚ) ^ e * 10 ^ 5) / 10 ^ 5 * (10 : ℚ) ^ e
    if q < 0 then -m else m

/-- The numbers of a written cube file in file order, as denoted by the text
`GridField.write_cube` produces: two title lines, the atom-count line with
the origin and NVal, one geometry line per axis, one line per atom, and the
value array.  The whitespace layout the source fixes (field widths, a line
break after every six values and after each z-run) does not change this
token sequence, and the token sequence is all that `Cube.__init__` consumes:
line 3 and the geometry and atom lines are `split()`, and the value array is
`read().split()`. -/
structure CubeTokens where
  title1 : String
  title2 : String
  atom_count : ℤ
  origin : List ℚ
  nval : ℚ
  axes : List (ℤ × List ℚ)
  atoms : List (ℤ × ℚ × List ℚ)
  values : List ℚ
  deriving DecidableEq, Repr

/-- Error cases of `write_cube` reachable in the written content: a requested
charge type missing from an atom's charge map (`KeyError`) and an atom
without coordinates (`TypeError`).  The `FileExistsError` of the `'x'` open
mode concerns the file system, not the content. -/
inductive WriteErr
  | keyError
  | typeError
  deriving DecidableEq, Repr

/-- Embeds `GridField.write_cube` (cube_helpers.py lines 363-406) at the
level of the numbers the written text denotes: origin, intervals and atom
coordinates are divided by `angstrom_per_bohr` when writing in bohr and
rendered with `'{: .6f}'`; the per-atom scalar is the selected charge or the
bare atomic number, rendered with `'{: .6f}'` and never unit-converted; the
values are rendered with `'{0: .5E}'`. -/
def write_cube (grid : Grid) (values : List ℚ) (field_type : String)
    (molecule : List Atom) (charge_type : Option String)
    (write_coords_in_bohr : Bool) : Except WriteErr CubeTokens := do
  let conv : ℚ → ℚ := fun q =>
    if write_coords_in_bohr then q / angstrom_per_bohr else q
  let atoms ← molecule.mapM (fun atom => do
    let charge : ℚ ←
      match charge_type with
      | none => pure (atom.atomic_no : ℚ)
      | some ct =>
        match atom.charges.lookup ct with
        | some c => pure c
        | none => Except.error WriteErr.keyError
    let coords ← match atom.coords with
      | some cs => pure cs
      | none => Except.error WriteErr.typeError
    pure (atom.atomic_no, fmtFix6 charge, coords.map (fun c => fmtFix6 (conv c))))
  pure
    { title1 := " Cube file generated by repESP."
      title2 := " Cube file for field of type " ++ field_type ++ "."
      atom_count := (molecule.length : ℤ)
      origin := grid.origin_coords.map (fun c => fmtFix6 (conv c))
      nval := 1
      axes := grid.axes.map (fun a =>
        (a.point_count, a.intervals.map (fun c => fmtFix6 (conv c))))
      atoms := atoms
      values := values.map fmtSci5 }

/-- Title table `Cube.title_to_type` (cube_helpers.py lines 34-39). -/
def title_to_type : List (String × String) :=
  [(" Electrostatic pot", "esp"),
   (" Electron density ", "ed"),
   (" Bader charge", "bader")]

/-- Error taxonomy of `Cube.__init__`: the `InputFormatError` for a bad
line-3 field count (and, in the token model, an atom-line count that does
not match the declared atom count), and the `GridError` raising sites. -/
inductive CubeErr
  | inputFormat
  | grid (e : GridErr)
  deriving DecidableEq, Repr

/-- Result of a successful `Cube.__init__`. -/
structure CubeParsed where
  cube_type : String
  atom_count : ℤ
  grid : Grid
  molecule : List Atom
  values : List ℚ
  deriving DecidableEq, Repr

/-- Embeds `Cube.__init__` (cube_helpers.py lines 41-113) over the token
model of the file: the title-based cube-type lookup with the
`"unrecognized"` fallback, the five-field check on line 3, the `NVal = 1`
check, grid construction via `Grid.__init__` on the three geometry lines,
unit conversion of origin and atom coordinates, the per-atom `'cube'`
charge, and the `field_from_raw` size check against the product of the point
counts. -/
def parse_cube (t : CubeTokens) (coords_in_bohr : Bool) :
    Except CubeErr CubeParsed := do
  let cube_type :=
    (title_to_type.lookup (String.mk (t.title2.toList.take 18))).getD
      "unrecognized"
  if t.origin.length ≠ 3 then .error .inputFormat
  else if t.nval ≠ 1 then .error (.grid .nvalNotOne)
  else do
    let grid ← match mkGrid (t.axes.map (fun a => ((a.1 : ℚ) :: a.2)))
        coords_in_bohr with
      | .ok g => pure g
      | .error e => Except.error (CubeErr.grid e)
    let origin := t.origin.map (fun c =>
      if coords_in_bohr then angstrom_per_bohr * c else c)
    let grid := { grid with origin_coords := origin }
    if (t.atoms.length : ℤ) ≠ t.atom_count then .error .inputFormat
    else do
      let molecule ← (t.atoms.enum).mapM (fun x =>
        match mkAtom ((x.1 : ℤ) + 1) x.2.1 (some x.2.2.2)
            (some coords_in_bohr) with
        | .ok a => pure { a with charges := [("cube", x.2.2.1)] }
        | .error _ => Except.error CubeErr.inputFormat)
      if (t.values.length : ℤ) ≠ grid.points_on_axes.prod then
        .error (.grid .fieldSizeMismatch)
      else
        pure ⟨cube_type, t.atom_count, grid, molecule, t.values⟩

/-- Specification-side referenced-by list: the 1-based labels (counted from
start position `i`) of the atoms whose ivary entry references atom `j+1`. -/
def referrers_from (i : ℕ) : List ℤ → ℕ → List ℤ
  | [], _ => []
  | e :: rest, j =>
    (if e = (j : ℤ) + 1 then [(i : ℤ) + 1] else []) ++
      referrers_from (i + 1) rest j

/-- Referenced-by list of atom `j` (0-based) over the whole combined ivary
list: the 1-based labels of the atoms referencing atom `j+1`, in order. -/
def referrers (ivary : List ℤ) (j : ℕ) : List ℤ := referrers_from 0 ivary j

/-- Specification-side resolved value of a referenced atom `j` (0-based):
the arithmetic mean of the input charges of the atoms referencing `j+1`
together with atom `j`'s own input charge. -/
def resolved_mean (ivary : List ℤ) (inp : List ℚ) (j : ℕ) : ℚ :=
  list_mean ((referrers ivary j).map (fun r => inp.getD (r - 1).toNat 0) ++
    [inp.getD j 0])

/-- The per-atom token row `write_cube` emits with `charge_type=None` and
bohr output: atomic number, the atomic number again as the `'{: .6f}'`
charge column, and the unit-divided rendered coordinates. -/
def write_atom_row (a : Atom) : ℤ × ℚ × List ℚ :=
  (a.atomic_no, fmtFix6 (a.atomic_no : ℚ),
    (a.coords.getD []).map (fun c => fmtFix6 (c / angstrom_per_bohr)))

/-- The atom `Cube.__init__` reconstructs from an atom token row at 0-based
position `i` when reading in bohr: label `i+1`, identity from the atomic
number, the `'cube'` charge, and unit-converted coordinates. -/
def parse_atom_row (x : ℕ × ℤ × ℚ × List ℚ) : Atom :=
  ⟨(x.1 : ℤ) + 1, x.2.1, (atom_identity x.2.1).1, [("cube", x.2.2.1)],
    some (x.2.2.2.map (fun c => angstrom_per_bohr * c))⟩

/-- Round-trip value of an interval component: divided by the unit and
rendered with six decimals by `write_cube`, then multiplied back by
`Grid.__init__` when re-read in bohr. -/
def conv_interval_rt (v : ℚ) : ℚ :=
  fmtFix6 (v / angstrom_per_bohr) * angstrom_per_bohr

/-- Round-trip value of an origin or atom coordinate component: divided by
the unit and rendered with six decimals by `write_cube`, then multiplied
back by `Cube.__init__` when re-read in bohr. -/
def conv_coord_rt (v : ℚ) : ℚ :=
  angstrom_per_bohr * fmtFix6 (v / angstrom_per_bohr)

/-! ## Shared lemmas -/

/-- A `mapM` over `Except` whose body never fails is the plain `map`. -/
theorem mapM_ok_of_forall {α β ε : Type} (f : α → Except ε β) (gf : α → β)
    (l : List α) (h : ∀ x ∈ l, f x = .ok (gf x)) :
    l.mapM f = .ok (l.map gf) := by
  induction l with
  | nil => rfl
  | cons x xs ih =>
    rw [List.mapM_cons, h x (by simp), List.map_cons,
      ih (fun y hy => h y (by simp [hy]))]
    rfl

/-- Computation rule of `Except` bind on a success. -/
theorem except_bind_ok {ε α β : Type} (a : α) (f : α → Except ε β) :
    (Except.ok a : Except ε α) >>= f = f a := rfl

/-- Computation rule of `Except` bind on a `pure` value. -/
theorem except_pure_bind {ε α β : Type} (a : α) (f : α → Except ε β) :
    (pure a : Except ε α) >>= f = f a := rfl

/-- Computation rule of `Except` bind on an error. -/
theorem except_bind_error {ε α β : Type} (e : ε) (f : α → Except ε β) :
    (Except.error e : Except ε α) >>= f = .error e := rfl

/-! ## C9: atom identity -/

/-- C9 counterexample: atomic number 19 lies outside the implemented range
1..18, yet `Atom.__init__` sets its identity to the sentinel symbol `"XX"`
from the final `periodic` entry — not to the string `"19"` — and the warning
does not fire. -/
theorem C9_counterexample :
    (atom_identity 19).1 = "XX" ∧ (atom_identity 19).1 ≠ "19" ∧
      (atom_identity 19).2 = false := by decide

/-- C9 amended: `identity` is a pure function of `atomic_number` and `Atom`
construction never raises on any atomic number (the only `ValueError`
concerns coordinates given without units): atomic numbers 1..18 map to their
periodic-table symbol without warning; numbers at least 20, and at most
-19 (whose index -20 falls outside the 19-entry table), degrade to the
string of the number with a warning; 19 and 0 hit the sentinel entry
`"XX"`, and -1..-18 silently wrap around to entries counted from the end of
the table, both without warning. -/
theorem C9_amended (n label : ℤ) (cs : List ℚ) (b : Bool) :
    (mkAtom label n none none =
      .ok ⟨label, n, (atom_identity n).1, [], none⟩) ∧
    (∃ a, mkAtom label n (some cs) (some b) = .ok a ∧
      a.identity = (atom_identity n).1) ∧
    (1 ≤ n ∧ n ≤ 18 → ∃ entry, periodic.get? (n - 1).toNat = some entry ∧
      atom_identity n = (entry.1, false)) ∧
    (20 ≤ n ∨ n ≤ -19 → atom_identity n = (toString n, true)) ∧
    (-18 ≤ n ∧ n ≤ -1 → ∃ entry, periodic.get? (n + 18).toNat = some entry ∧
      atom_identity n = (entry.1, false)) ∧
    (atom_identity 19 = ("XX", false)) ∧ (atom_identity 0 = ("XX", false)) ∧
    (atom_identity (-1) = ("Ar", false)) := by
  refine ⟨rfl, ⟨_, rfl, rfl⟩, ?_, ?_, ?_, by decide, by decide, by decide⟩
  · rintro ⟨h1, h18⟩
    interval_cases n <;> exact ⟨_, rfl, rfl⟩
  · intro h
    have hnone : pyGet periodic (n - 1) = none := by
      have hlen : periodic.length = 19 := rfl
      rcases h with h | h
      · rw [pyGet, if_pos (by omega)]
        apply List.get?_eq_none.2
        rw [hlen]; omega
      · rw [pyGet, if_neg (by omega), if_neg (by rw [hlen]; omega)]
    rw [atom_identity, hnone]
  · rintro ⟨h1, h18⟩
    interval_cases n <;> exact ⟨_, rfl, rfl⟩

/-- C9 witness: the amended theorem applied at atomic number 25 (degrades to
the string of the number, with a warning), at -19 (index -20, outside the
table, so it degrades with a warning too) and at 7 (nitrogen). -/
theorem C9_amended_witness :
    atom_identity 25 = ("25", true) ∧
    atom_identity (-19) = ("-19", true) ∧
    mkAtom 1 7 none none = .ok ⟨1, 7, (atom_identity 7).1, [], none⟩ :=
  ⟨(C9_amended 25 1 [] true).2.2.2.1 (Or.inl (by norm_num)),
   (C9_amended (-19) 1 [] true).2.2.2.1 (Or.inr (by norm_num)),
   (C9_amended 7 1 [] true).1⟩

/-! ## C1: grid alignment -/

/-- C1 counterexample: for a geometry whose x-axis line carries a nonzero
off-diagonal (z) interval component, `Grid.__init__` computes the alignment
flag as false but then itself raises `GridError` — the grid object is *not*
constructed, contrary to the claim that construction succeeds and only
alignment-requiring operations refuse the grid. -/
theorem C1_counterexample :
    grid_alignment_flag [[2, 1, 0, 1], [2, 0, 1, 0], [2, 0, 0, 1]] false = false ∧
    mkGrid [[2, 1, 0, 1], [2, 0, 1, 0], [2, 0, 0, 1]] false =
      .error .notAligned := by decide

/-- C1 amended: a three-line geometry with a nonzero off-diagonal interval
component is marked non-aligned and `Grid.__init__` refuses it with a
`GridError` at construction time (so no grid object is produced);
`GridField.distance_transform` independently refuses any grid whose
alignment flag is false with the same error class; a geometry whose
off-diagonal components are all zero yields a grid marked aligned, on which
`distance_transform` proceeds past its alignment gate. -/
theorem C1_amended (gi : List (List ℚ)) (b : Bool) (axes : List GridAxis)
    (aligned : Bool) (g : Grid) (iso : ℚ) (vals : List ℚ)
    (hshape : gi.length = 3 ∧ ∀ row ∈ gi, row.length = 4)
    (haxes : add_axes b 0 gi = .ok (axes, aligned)) :
    (aligned = false → mkGrid gi b = .error .notAligned) ∧
    (aligned = true → mkGrid gi b =
      .ok { axes := axes, aligned_to_coord := true,
            dir_intervals := axes.map GridAxis.dir_interval,
            points_on_axes := axes.map GridAxis.point_count,
            origin_coords := [] }) ∧
    (g.aligned_to_coord = false →
      distance_transform_binarized g iso vals = .error .notAligned) ∧
    (g.aligned_to_coord = true →
      distance_transform_binarized g iso vals =
        .ok (vals.map (fun x => if x < iso then 1 else 0))) := by
  refine ⟨?_, ?_, ?_, ?_⟩
  · intro hal
    subst hal
    rw [mkGrid, if_pos hshape, haxes]
    rfl
  · intro hal
    subst hal
    rw [mkGrid, if_pos hshape, haxes]
    rfl
  · intro hal
    rw [distance_transform_binarized, hal]
    rfl
  · intro hal
    rw [distance_transform_binarized, hal]
    rfl

/-- C1 witness: the amended theorem applied to a concrete non-aligned
geometry (and, for the positive conjuncts, to a concrete aligned grid). -/
theorem C1_witness :
    mkGrid [[2, 1, 0, 1], [2, 0, 1, 0], [2, 0, 0, 1]] false =
      .error .notAligned ∧
    mkGrid [[2, 1, 0, 0], [2, 0, 1, 0], [2, 0, 0, 1]] false =
      .ok { axes := [⟨2, [1, 0, 0], 1⟩, ⟨2, [0, 1, 0], 1⟩, ⟨2, [0, 0, 1], 1⟩],
            aligned_to_coord := true, dir_intervals := [1, 1, 1],
            points_on_axes := [2, 2, 2], origin_coords := [] } ∧
    distance_transform_binarized
      { axes := [], aligned_to_coord := false, dir_intervals := [],
        points_on_axes := [], origin_coords := [] } 0 [1] =
      .error .notAligned := by
  refine ⟨?_, ?_, ?_⟩
  · exact (C1_amended [[2, 1, 0, 1], [2, 0, 1, 0], [2, 0, 0, 1]] false
      [⟨2, [1, 0, 1], 1⟩, ⟨2, [0, 1, 0], 1⟩, ⟨2, [0, 0, 1], 1⟩] false
      { axes := [], aligned_to_coord := false, dir_intervals := [],
        points_on_axes := [], origin_coords := [] } 0 [1]
      (by decide) (by decide)).1 rfl
  · exact (C1_amended [[2, 1, 0, 0], [2, 0, 1, 0], [2, 0, 0, 1]] false
      [⟨2, [1, 0, 0], 1⟩, ⟨2, [0, 1, 0], 1⟩, ⟨2, [0, 0, 1], 1⟩] true
      { axes := [], aligned_to_coord := false, dir_intervals := [],
        points_on_axes := [], origin_coords := [] } 0 [1]
      (by decide) (by decide)).2.1 rfl
  · exact (C1_amended [[2, 1, 0, 0], [2, 0, 1, 0], [2, 0, 0, 1]] false
      [⟨2, [1, 0, 0], 1⟩, ⟨2, [0, 1, 0], 1⟩, ⟨2, [0, 0, 1], 1⟩] true
      { axes := [], aligned_to_coord := false, dir_intervals := [],
        points_on_axes := [], origin_coords := [] } 0 [1]
      (by decide) (by decide)).2.2.1 rfl

/-! ## C10: the `unset_charge` sentinel in 'dict' mode -/

/-- Per-atom rule of `_modify_ivary_list` for `resp_type='d'`: the merged
ivary survives exactly when the input charge equals the sentinel, and every
other atom is frozen. -/
theorem modify_ivary_one_d (a : Atom) (v1 v2 : ℤ) (c : ℚ) :
    modify_ivary_one "d" a.atomic_no v1 v2 (some c) =
      .ok (if c = unset_charge then max v1 v2 else -1) := by
  by_cases hc : c = unset_charge <;>
    simp [modify_ivary_one, hc, pure, Except.pure, except_bind_ok]

/-- Zipped-map form of the 'd' rule rewritten as a `zipWith` over the charge
list and the merged ivary list. -/
theorem zip_map_d_eq (mol : List Atom) (iv1 iv2 : List ℤ) (cs : List ℚ)
    (h1 : mol.length = cs.length) (h2 : iv1.length = cs.length)
    (h3 : iv2.length = cs.length) :
    ((((mol.zip iv1).zip iv2).zip (cs.map some)).map
      (fun x => if x.2 = some unset_charge then max x.1.1.2 x.1.2 else -1)) =
    List.zipWith (fun q iv => if q = unset_charge then iv else -1) cs
      (List.zipWith max iv1 iv2) := by
  induction mol generalizing iv1 iv2 cs with
  | nil =>
    cases cs with
    | nil => simp
    | cons c cs' => simp at h1
  | cons a mol' ih =>
    cases cs with
    | nil => simp at h1
    | cons c cs' =>
      cases iv1 with
      | nil => simp at h2
      | cons v1 iv1' =>
        cases iv2 with
        | nil => simp at h3
        | cons v2 iv2' =>
          simp only [List.map_cons, List.zip_cons_cons, List.zipWith_cons_cons,
            List.length_cons] at h1 h2 h3 ⊢
          rw [ih iv1' iv2' cs' (by omega) (by omega) (by omega)]
          simp

/-- List-level rule of `_modify_ivary_list` for `resp_type='d'` on lists of
equal length: the merged (max) ivary survives exactly for the atoms whose
input charge equals the `unset_charge` sentinel; every other atom is frozen
to -1. -/
theorem modify_ivary_list_d_eq (mol : List Atom) (iv1 iv2 : List ℤ)
    (cs : List ℚ) (h1 : mol.length = cs.length) (h2 : iv1.length = cs.length)
    (h3 : iv2.length = cs.length) :
    modify_ivary_list "d" mol iv1 iv2 (some cs) =
      .ok (List.zipWith (fun q iv => if q = unset_charge then iv else -1) cs
        (List.zipWith max iv1 iv2)) := by
  have step1 : modify_ivary_list "d" mol iv1 iv2 (some cs) =
      (((mol.zip iv1).zip iv2).zip (cs.map some)).mapM
        (fun x => modify_ivary_one "d" x.1.1.1.atomic_no x.1.1.2 x.1.2 x.2) :=
    rfl
  rw [step1, mapM_ok_of_forall _
    (fun x => if x.2 = some unset_charge then max x.1.1.2 x.1.2 else -1)]
  · rw [zip_map_d_eq mol iv1 iv2 cs h1 h2 h3]
  · rintro ⟨⟨⟨a, v1⟩, v2⟩, oc⟩ hx
    have hoc : oc ∈ cs.map some := (List.of_mem_zip hx).2
    obtain ⟨c, _, rfl⟩ := List.mem_map.1 hoc
    simpa using modify_ivary_one_d a v1 v2 c

/-- C10: `charges_from_dict` returns a list of length `n` whose `i`-th
element is the dictionary entry under label `i+1` when present and the fixed
sentinel 42 (`unset_charge`) otherwise; consequently in 'dict' mode
`_modify_ivary_list` freezes exactly the atoms whose input charge differs
from 42, so a dictionary that genuinely assigns the value 42 to an atom
produces the very same charge list — and hence the same ivary actions — as
one that leaves that atom unspecified. -/
theorem C10 (charge_dict : ℤ → Option ℚ) (n i : ℕ) (hi : i < n)
    (mol : List Atom) (iv1 iv2 : List ℤ)
    (h1 : mol.length = n) (h2 : iv1.length = n) (h3 : iv2.length = n)
    (d2 : ℤ → Option ℚ) (hd2 : d2 ((i : ℤ) + 1) = none)
    (hagree : ∀ j : ℤ, j ≠ (i : ℤ) + 1 → d2 j = charge_dict j)
    (h42 : charge_dict ((i : ℤ) + 1) = some unset_charge) :
    ((charges_from_dict charge_dict n).length = n) ∧
    ((charges_from_dict charge_dict n).get? i =
      some ((charge_dict ((i : ℤ) + 1)).getD unset_charge)) ∧
    (modify_ivary_list "d" mol iv1 iv2
        (some (charges_from_dict charge_dict n)) =
      .ok (List.zipWith (fun q iv => if q = unset_charge then iv else -1)
        (charges_from_dict charge_dict n) (List.zipWith max iv1 iv2))) ∧
    (charges_from_dict charge_dict n = charges_from_dict d2 n) := by
  have hlen : ∀ d3 : ℤ → Option ℚ, (charges_from_dict d3 n).length = n := by
    intro d3
    rw [charges_from_dict, List.length_map, List.length_range]
  refine ⟨hlen charge_dict, ?_, ?_, ?_⟩
  · rw [charges_from_dict, List.get?_eq_getElem?, List.getElem?_map,
      List.getElem?_range hi]
    cases h : charge_dict ((i : ℤ) + 1) <;> simp [h]
  · exact modify_ivary_list_d_eq mol iv1 iv2 _ (by rw [hlen, h1])
      (by rw [hlen, h2]) (by rw [hlen, h3])
  · rw [charges_from_dict, charges_from_dict]
    apply List.map_congr_left
    intro k hk
    by_cases hki : k = i
    · subst hki
      rw [h42, hd2]
    · rw [hagree ((k : ℤ) + 1) (by omega)]

/-- C10 witness: the theorem applied to a concrete dictionary assigning 42
to atom 2 of a three-atom system. -/
theorem C10_witness :
    charges_from_dict (fun j => if j = 2 then some unset_charge else none) 3 =
      charges_from_dict (fun _ => none) 3 := by
  have h := C10 (fun j => if j = 2 then some unset_charge else none) 3 1
    (by norm_num) [⟨1, 6, "C", [], none⟩, ⟨2, 1, "H", [], none⟩,
      ⟨3, 1, "H", [], none⟩] [0, 0, 0] [0, 0, 0] rfl rfl rfl
    (fun _ => none) rfl
    (fun j hj => by
      have hj2 : j ≠ 2 := by exact_mod_cast hj
      simp [hj2])
    (by norm_num)
  exact h.2.2.2

/-! ## C7: the charge-block terminator check -/

/-- C7 counterexample: for the `'sumviz'` format, Python's `in` on the
string value `'--------'` is substring containment, so a final line `"---"`
(whose first 8 characters are `"---"`, not the terminator `"--------"`) is
accepted without any error, contrary to the claim that every line whose
first 8 characters are not an acceptable terminator raises a format error. -/
theorem C7_counterexample :
    (∃ cs, get_charges_from_lines "aim" ["C1   -0.5\n", "---"] "sumviz"
      [⟨1, 6, "C", [], none⟩] = .ok cs) ∧
    String.mk ("---".toList.take 8) ≠ "--------" ∧
    termination_ok "sumviz" "---" = some true :=
  ⟨⟨_, rfl⟩, by decide, by decide⟩

/-- C7 amended: after the data rows are consumed one further line is read
and its first 8 characters are tested with Python's `in` against the
format's termination value; for `'log'` this is exact membership in the two
prefixes `' Sum of '` and `' ======='`, but for `'sumviz'` it is *substring*
containment in `'--------'`, so besides the dash terminator any contiguous
dash run of length at most 8 without a trailing newline (including the empty
string at end of file) is accepted; every other line raises the format error
reporting the expected terminator and the found content. -/
theorem C7_amended (charge_type input_type : String) (lines : List String)
    (molecule : List Atom) (charges : List ℚ) (rest : List String)
    (t : TermLines)
    (haux : get_charges_aux charge_type input_type molecule 0 lines [] =
      .ok (charges, rest))
    (hterm : charge_termination_line input_type = some t) :
    (get_charges_from_lines charge_type lines input_type molecule =
      (if py_in_term (String.mk ((py_readline rest).1.toList.take 8)) t then
        .ok charges
      else
        .error (.badTermination t
          (String.mk ((py_readline rest).1.toList.take 8))))) ∧
    (∀ nl, termination_ok "log" nl =
      some ([" Sum of ", " ======="].contains
        (String.mk (nl.toList.take 8)))) ∧
    (∀ nl, termination_ok "sumviz" nl =
      some (py_substr (nl.toList.take 8) "--------".toList)) := by
  refine ⟨?_, fun nl => rfl, fun nl => rfl⟩
  have step : get_charges_from_lines charge_type lines input_type molecule =
      (do
        let (charges, rest) ← get_charges_aux charge_type input_type
          molecule 0 lines []
        let (next_line, _) := py_readline rest
        match charge_termination_line input_type with
        | none => .error .keyError
        | some term =>
          if py_in_term (String.mk (next_line.toList.take 8)) term then
            pure charges
          else
            .error (.badTermination term
              (String.mk (next_line.toList.take 8)))) := rfl
  rw [step]
  simp only [haux, except_bind_ok, hterm]
  by_cases hin : py_in_term (String.mk ((py_readline rest).1.toList.take 8)) t = true
  · simp only [if_pos hin]; rfl
  · simp only [if_neg hin]

/-- C7 witness: the amended theorem applied to a concrete one-atom sumviz
extraction whose terminator line is a full dash run, and concrete log and
sumviz terminator lines. -/
theorem C7_witness :
    (∃ cs, get_charges_from_lines "aim" ["C1   -0.5\n", "--------------\n"]
      "sumviz" [⟨1, 6, "C", [], none⟩] = .ok cs) ∧
    termination_ok "log" " Sum of Mulliken charges\n" = some true ∧
    termination_ok "sumviz" "xx\n" = some false := by
  obtain ⟨h1, h2, h3⟩ := C7_amended "aim" "sumviz"
    ["C1   -0.5\n", "--------------\n"] [⟨1, 6, "C", [], none⟩]
    _ _ (.str "--------") rfl rfl
  refine ⟨?_, ?_, ?_⟩
  · rw [if_pos (by decide)] at h1
    exact ⟨_, h1⟩
  · rw [h2 " Sum of Mulliken charges\n"]; rfl
  · rw [h3 "xx\n"]; rfl

/-! ## C2 and C6: the equivalence resolver -/

/-- Membership in a referenced-by list forces the referenced label to occur
in the ivary list. -/
theorem referrers_from_mem_val {i : ℕ} {l : List ℤ} {j : ℕ} {r : ℤ}
    (h : r ∈ referrers_from i l j) : ((j : ℤ) + 1) ∈ l := by
  induction l generalizing i with
  | nil => simp [referrers_from] at h
  | cons e rest ih =>
    rw [referrers_from, List.mem_append] at h
    rcases h with h | h
    · by_cases he : e = (j : ℤ) + 1
      · simp [he]
      · simp [he] at h
    · exact List.mem_cons_of_mem _ (ih h)

/-- Elements of a referenced-by list are labels between `i+1` and
`i + length`. -/
theorem referrers_from_mem_bounds {i : ℕ} {l : List ℤ} {j : ℕ} {r : ℤ}
    (h : r ∈ referrers_from i l j) :
    (i : ℤ) + 1 ≤ r ∧ r ≤ (i : ℤ) + l.length := by
  induction l generalizing i with
  | nil => simp [referrers_from] at h
  | cons e rest ih =>
    rw [referrers_from, List.mem_append] at h
    rcases h with h | h
    · by_cases he : e = (j : ℤ) + 1
      · simp [he] at h
        subst h
        refine ⟨by omega, ?_⟩
        simp only [List.length_cons]
        push_cast
        omega
      · simp [he] at h
    · have := ih h
      simp only [List.length_cons]
      push_cast at this ⊢
      omega

/-- Characterization of the `reffed_by` construction loop of `equivalence`
for in-range ivary entries: it never raises, preserves the accumulator
length, and appends exactly the spec-side referenced-by lists. -/
theorem build_reffed_by_aux_spec (rest : List ℤ) (acc : List (List ℤ)) (i : ℕ)
    (hval : ∀ e ∈ rest, 0 ≤ e ∧ e ≤ (acc.length : ℤ)) :
    ∃ rb, build_reffed_by_aux acc i rest = .ok rb ∧ rb.length = acc.length ∧
      ∀ j, rb.get? j =
        (acc.get? j).map (fun l => l ++ referrers_from i rest j) := by
  induction rest generalizing acc i with
  | nil =>
    refine ⟨acc, rfl, rfl, fun j => ?_⟩
    cases h : acc.get? j <;> simp [referrers_from, h]
  | cons e rest ih =>
    by_cases he : e = 0
    · subst he
      obtain ⟨rb, h1, h2, h3⟩ := ih acc (i + 1)
        (fun x hx => hval x (by simp [hx]))
      refine ⟨rb, ?_, h2, fun j => ?_⟩
      · rw [build_reffed_by_aux, if_neg (by simp)]
        exact h1
      · rw [h3 j]
        have hz : ¬ ((0 : ℤ) = (j : ℤ) + 1) := by omega
        cases hacc : acc.get? j <;> simp [referrers_from, hz]
    · have hb := hval e (by simp)
      have h1e : 1 ≤ e := by omega
      have hlt : (e - 1).toNat < acc.length := by omega
      have hget : pyGet acc (e - 1) =
          some (acc.get ⟨(e - 1).toNat, hlt⟩) := by
        rw [pyGet, if_pos (by omega), List.get?_eq_get hlt]
      have hset : pySet acc (e - 1)
          (acc.get ⟨(e - 1).toNat, hlt⟩ ++ [(i : ℤ) + 1]) =
          some (acc.set (e - 1).toNat
            (acc.get ⟨(e - 1).toNat, hlt⟩ ++ [(i : ℤ) + 1])) := by
        rw [pySet, if_pos (by omega), if_pos hlt]
      obtain ⟨rb, h1, h2, h3⟩ := ih
        (acc.set (e - 1).toNat (acc.get ⟨(e - 1).toNat, hlt⟩ ++ [(i : ℤ) + 1]))
        (i + 1)
        (fun x hx => by
          rw [List.length_set]
          exact hval x (by simp [hx]))
      refine ⟨rb, ?_, by rwa [List.length_set] at h2, fun j => ?_⟩
      · rw [build_reffed_by_aux, if_pos he]
        simp only [hget, hset]
        exact h1
      · rw [h3 j, List.get?_eq_getElem?, List.getElem?_set,
          ← List.get?_eq_getElem?]
        by_cases hj : (e - 1).toNat = j
        · subst hj
          have hej : e = (((e - 1).toNat : ℕ) : ℤ) + 1 := by omega
          rw [if_pos rfl, if_pos hlt, referrers_from, if_pos hej,
            List.get?_eq_get hlt]
          simp [List.append_assoc]
        · rw [if_neg hj]
          have hej : ¬ (e = (j : ℤ) + 1) := by omega
          cases hacc : acc.get? j <;> simp [referrers_from, hej, hacc]

/-- The `reffed_by` lists of `equivalence` are exactly the spec-side
referenced-by lists when every ivary entry is in range. -/
theorem build_reffed_by_spec (ivary : List ℤ)
    (hval : ∀ e ∈ ivary, 0 ≤ e ∧ e ≤ (ivary.length : ℤ)) :
    ∃ rb, build_reffed_by ivary = .ok rb ∧ rb.length = ivary.length ∧
      ∀ j, rb.get? j =
        if j < ivary.length then some (referrers ivary j) else none := by
  obtain ⟨rb, h1, h2, h3⟩ := build_reffed_by_aux_spec ivary
    (List.replicate ivary.length []) 0 (by simpa using hval)
  refine ⟨rb, h1, by simpa using h2, fun j => ?_⟩
  rw [h3 j, List.get?_eq_getElem?, List.getElem?_replicate]
  by_cases hj : j < ivary.length
  · rw [if_pos hj, if_pos hj]
    simp [referrers]
  · rw [if_neg hj, if_neg hj]
    rfl

/-- Index-wise description of a map over an enumerated list. -/
theorem enum_map_get {α β : Type} (l : List α) (f : ℕ × α → β) (j : ℕ) :
    (l.enum.map f).get? j = (l.get? j).map (fun a => f (j, a)) := by
  rw [List.get?_eq_getElem?, List.getElem?_map, List.getElem?_enum]
  rw [← List.get?_eq_getElem?]
  cases l.get? j <;> rfl

/-- Python indexing agrees with `getD` at a valid non-negative index. -/
theorem pyGet_getD_eq (inp : List ℚ) (r : ℤ) (h0 : 0 ≤ r)
    (h1 : r.toNat < inp.length) :
    (pyGet inp r).getD 0 = inp.getD r.toNat 0 := by
  rw [pyGet, if_pos h0, List.getD_eq_get?]

/-- Python indexing yields the `getD` value at a valid non-negative index. -/
theorem pyGet_eq_some_getD {α : Type} (l : List α) (r : ℤ) (d : α)
    (h0 : 0 ≤ r) (h1 : r.toNat < l.length) :
    pyGet l r = some (l.getD r.toNat d) := by
  rw [pyGet, if_pos h0, List.getD_eq_get?, List.get?_eq_get h1]
  rfl

/-- Python indexing at a natural index within bounds. -/
theorem pyGet_natCast {α : Type} (l : List α) (i : ℕ) (d : α)
    (h1 : i < l.length) : pyGet l (i : ℤ) = some (l.getD i d) := by
  have h := pyGet_eq_some_getD l (i : ℤ) d (by omega) (by simpa using h1)
  simpa using h

/-- A `get?` within bounds yields the `getD` value. -/
theorem get?_eq_some_getD {α : Type} (l : List α) (i : ℕ) (d : α)
    (h : i < l.length) : l.get? i = some (l.getD i d) := by
  rw [List.getD_eq_get?, List.get?_eq_get h]
  rfl

/-- Index-wise description of the first resolution loop of `equivalence`. -/
theorem equivalence_avg_get (rb : List (List ℤ)) (inp : List ℚ) (j : ℕ) :
    (equivalence_avg rb inp).get? j = (rb.get? j).map (fun refs =>
      if refs ≠ [] then
        some (list_mean ((refs.map (fun r => (pyGet inp (r - 1)).getD 0)) ++
          [(pyGet inp (j : ℤ)).getD 0]))
      else none) :=
  enum_map_get rb _ j

/-- Value of the first resolution loop at a referenced-by list coming from a
valid ivary list: the mean over the referrers and the atom itself. -/
theorem equivalence_avg_entry (rb : List (List ℤ)) (ivary : List ℤ)
    (inp : List ℚ) (j : ℕ) (hrb : rb.get? j = some (referrers ivary j))
    (hlen : inp.length = ivary.length) (hj : j < ivary.length) :
    (equivalence_avg rb inp).get? j =
      some (if referrers ivary j ≠ [] then
        some (resolved_mean ivary inp j) else none) := by
  rw [equivalence_avg_get, hrb, Option.map_some']
  by_cases hne : referrers ivary j = []
  · simp [hne]
  · rw [if_pos hne, if_pos hne]
    have hmean : list_mean
        (((referrers ivary j).map (fun r => (pyGet inp (r - 1)).getD 0)) ++
          [(pyGet inp (j : ℤ)).getD 0]) = resolved_mean ivary inp j := by
      rw [resolved_mean]
      have hmap : (referrers ivary j).map (fun r => (pyGet inp (r - 1)).getD 0) =
          (referrers ivary j).map (fun r => inp.getD (r - 1).toNat 0) := by
        apply List.map_congr_left
        intro r hr
        have hb := referrers_from_mem_bounds (l := ivary) (i := 0) hr
        exact pyGet_getD_eq inp (r - 1) (by omega) (by omega)
      rw [hmap, pyGet_getD_eq inp (j : ℤ) (by omega) (by simpa [hlen] using hj)]
      simp
    rw [hmean]

/-- Characterization of the second resolution loop of `equivalence` under
valid lengths and in-range ivary entries: it never raises and fills every
`None` entry from the atom's own charge or from the first-loop entry of the
referenced atom. -/
theorem equivalence_fill_spec (result : List (Option ℚ)) (ivary : List ℤ)
    (inp : List ℚ) (hlen1 : ivary.length = result.length)
    (hlen2 : inp.length = result.length)
    (hval : ∀ e ∈ ivary, 0 ≤ e ∧ e ≤ (result.length : ℤ)) :
    equivalence_fill result ivary inp = .ok (result.enum.map (fun x =>
      match x.2 with
      | some v => some v
      | none =>
        if ivary.getD x.1 0 = 0 then some (inp.getD x.1 0)
        else result.getD (ivary.getD x.1 0 - 1).toNat none)) := by
  rw [equivalence_fill]
  apply mapM_ok_of_forall
  rintro ⟨i, oq⟩ hx
  obtain ⟨hi, -⟩ := List.mem_enum hx
  cases oq with
  | some v => rfl
  | none =>
    have hi2 : i < ivary.length := by omega
    have hgeti : ivary.get? i = some (ivary.getD i 0) :=
      get?_eq_some_getD ivary i 0 hi2
    have hgiv : pyGet ivary (i : ℤ) = some (ivary.getD i 0) :=
      pyGet_natCast ivary i 0 hi2
    have hmem : ivary.getD i 0 ∈ ivary := List.get?_mem hgeti
    have hbv := hval _ hmem
    simp only [hgiv]
    by_cases h0 : ivary.getD i 0 = 0
    · have hgi : pyGet inp (i : ℤ) = some (inp.getD i 0) :=
        pyGet_natCast inp i 0 (by omega)
      simp only [h0, if_pos rfl, hgi]
      rfl
    · have hk1 : 1 ≤ ivary.getD i 0 := by omega
      have hklt : (ivary.getD i 0 - 1).toNat < result.length := by omega
      have hgr : pyGet result (ivary.getD i 0 - 1) =
          some (result.getD (ivary.getD i 0 - 1).toNat none) :=
        pyGet_eq_some_getD result _ none (by omega) hklt
      simp only [if_neg h0, hgr]
      rfl

/-- Membership of a referencing atom's label in the referenced atom's
referenced-by list, from the ivary entry. -/
theorem referrers_from_mem_of_get (l : List ℤ) (j : ℕ) :
    ∀ (i0 i : ℕ), l.get? i = some ((j : ℤ) + 1) →
      ((i0 + i : ℤ) + 1) ∈ referrers_from i0 l j := by
  induction l with
  | nil => intro i0 i h; simp at h
  | cons e rest ih =>
    intro i0 i h
    cases i with
    | zero =>
      simp only [List.get?] at h
      have he : e = (j : ℤ) + 1 := by injection h
      rw [referrers_from, if_pos he]
      simp
    | succ m =>
      rw [referrers_from]
      apply List.mem_append_right
      have := ih (i0 + 1) m (by simpa using h)
      convert this using 2
      push_cast
      ring

/-- An atom with a positive combined ivary entry appears in the
referenced-by list of the atom it references. -/
theorem mem_referrers_of_get (ivary : List ℤ) (i : ℕ) (k : ℤ)
    (h : ivary.get? i = some k) (hk : 0 < k) :
    ((i : ℤ) + 1) ∈ referrers ivary (k - 1).toNat := by
  have hkk : ((((k - 1).toNat : ℕ) : ℤ) + 1) = k := by omega
  have := referrers_from_mem_of_get ivary (k - 1).toNat 0 i (by rw [h, hkk])
  simpa using this

/-- Characterization of `equivalence_core` on a valid flat (depth-1)
configuration: resolution succeeds, atoms with referrers receive the mean of
their own and their referrers' charges, unreferenced free atoms keep their
charge, and unreferenced referencing atoms adopt the referenced atom's
resolved mean (one indirection). -/
theorem equivalence_core_spec (ivary : List ℤ) (inp : List ℚ)
    (hinp : inp.length = ivary.length)
    (hval : ∀ e ∈ ivary, 0 ≤ e ∧ e ≤ (ivary.length : ℤ))
    (hflat : ∀ j : ℕ, ∀ r ∈ referrers ivary j,
      referrers ivary (r - 1).toNat = []) :
    ∃ out, equivalence_core ivary inp = .ok out ∧
      out.length = ivary.length ∧
      ∀ i k, ivary.get? i = some k →
        ((referrers ivary i ≠ [] →
          out.get? i = some (some (resolved_mean ivary inp i))) ∧
         (referrers ivary i = [] → k = 0 →
          out.get? i = some (some (inp.getD i 0))) ∧
         (referrers ivary i = [] → 0 < k →
          out.get? i = some (some (resolved_mean ivary inp (k - 1).toNat)) ∧
            referrers ivary (k - 1).toNat ≠ [])) := by
  obtain ⟨rb, hbuild, hrblen, hrbget⟩ := build_reffed_by_spec ivary hval
  have hdeep : has_deep_reference rb = false := by
    rw [Bool.eq_false_iff]
    intro htrue
    rw [has_deep_reference, List.any_eq_true] at htrue
    obtain ⟨refs, hrefs, hany⟩ := htrue
    rw [List.any_eq_true] at hany
    obtain ⟨r, hr, hmatch⟩ := hany
    obtain ⟨j, hj⟩ := List.mem_iff_get?.1 hrefs
    have hjlt : j < ivary.length := by
      by_contra hge
      rw [hrbget j, if_neg hge] at hj
      exact Option.noConfusion hj
    rw [hrbget j, if_pos hjlt] at hj
    have hrefs_eq : refs = referrers ivary j := by
      injection hj with h
      exact h.symm
    subst hrefs_eq
    have hb := referrers_from_mem_bounds (l := ivary) (i := 0) hr
    have hflat_r := hflat j r hr
    have hpg : pyGet rb (r - 1) = some (referrers ivary (r - 1).toNat) := by
      rw [pyGet, if_pos (by omega)]
      have : (r - 1).toNat < ivary.length := by omega
      rw [hrbget (r - 1).toNat, if_pos this]
    rw [hpg, hflat_r] at hmatch
    simp at hmatch
  have hcore : equivalence_core ivary inp =
      equivalence_fill (equivalence_avg rb inp) ivary inp := by
    have step : equivalence_core ivary inp =
        (build_reffed_by ivary >>= fun rb2 =>
          if has_deep_reference rb2 then .error .notImplemented
          else equivalence_fill (equivalence_avg rb2 inp) ivary inp) := rfl
    rw [step, hbuild, except_bind_ok, hdeep]
    rfl
  have havglen : (equivalence_avg rb inp).length = ivary.length := by
    rw [equivalence_avg, List.length_map, List.enum_length, hrblen]
  have hfill := equivalence_fill_spec (equivalence_avg rb inp) ivary inp
    (by rw [havglen]) (by rw [havglen]; exact hinp)
    (by rw [havglen]; exact hval)
  refine ⟨_, by rw [hcore, hfill], ?_, ?_⟩
  · rw [List.length_map, List.enum_length, havglen]
  · intro i k hik
    have hilt : i < ivary.length := by
      by_contra hge
      rw [List.get?_eq_getElem?, List.getElem?_eq_none (by omega)] at hik
      exact Option.noConfusion hik
    have hrbi : rb.get? i = some (referrers ivary i) := by
      rw [hrbget i, if_pos hilt]
    have havgi := equivalence_avg_entry rb ivary inp i hrbi hinp hilt
    have hout : ∀ v, (equivalence_avg rb inp).get? i = some v →
        ((equivalence_avg rb inp).enum.map (fun x =>
          match x.2 with
          | some v => some v
          | none =>
            if ivary.getD x.1 0 = 0 then some (inp.getD x.1 0)
            else (equivalence_avg rb inp).getD
              (ivary.getD x.1 0 - 1).toNat none)).get? i =
        some (match v with
          | some w => some w
          | none =>
            if ivary.getD i 0 = 0 then some (inp.getD i 0)
            else (equivalence_avg rb inp).getD
              (ivary.getD i 0 - 1).toNat none) := by
      intro v hv
      rw [enum_map_get, hv]
      rfl
    have hgetD : ivary.getD i 0 = k := by
      rw [List.getD_eq_get?, hik]
      rfl
    refine ⟨?_, ?_, ?_⟩
    · intro hne
      rw [if_pos hne] at havgi
      exact hout _ havgi
    · intro hemp hk0
      rw [if_neg (by simpa using hemp)] at havgi
      have := hout _ havgi
      rw [this]
      rw [hgetD, hk0]
      rfl
    · intro hemp hkpos
      rw [if_neg (by simpa using hemp)] at havgi
      have hmem := mem_referrers_of_get ivary i k hik hkpos
      have hkne : referrers ivary (k - 1).toNat ≠ [] :=
        fun hcon => by rw [hcon] at hmem; exact List.not_mem_nil _ hmem
      have hk_in : k ∈ ivary := List.get?_mem hik
      have hkb := hval k hk_in
      have hkl : (k - 1).toNat < ivary.length := by omega
      have hrbk : rb.get? (k - 1).toNat =
          some (referrers ivary (k - 1).toNat) := by
        rw [hrbget (k - 1).toNat, if_pos hkl]
      have havgk := equivalence_avg_entry rb ivary inp (k - 1).toNat hrbk
        hinp hkl
      rw [if_pos hkne] at havgk
      have hgd : (equivalence_avg rb inp).getD (k - 1).toNat none =
          some (resolved_mean ivary inp (k - 1).toNat) := by
        rw [List.getD_eq_get?, havgk]
        rfl
      have := hout _ havgi
      rw [this, hgetD, if_neg (by omega), hgd]
      exact ⟨rfl, hkne⟩

/-- Per-atom rule of `_modify_ivary_list` for `resp_type='e'`: the plain
maximum of the two stage values. -/
theorem modify_ivary_one_e (a : Atom) (v1 v2 : ℤ) (oc : Option ℚ) :
    modify_ivary_one "e" a.atomic_no v1 v2 oc = .ok (max v1 v2) := by
  simp [modify_ivary_one, except_bind_ok, pure, Except.pure]

/-- Zipped-map form of the 'e' rule as a `zipWith max`. -/
theorem zip_map_e_eq (mol : List Atom) (iv1 iv2 : List ℤ)
    (h1 : mol.length = iv1.length) (h2 : iv2.length = iv1.length) :
    ((((mol.zip iv1).zip iv2).zip
        (List.replicate mol.length (none : Option ℚ))).map
      (fun x => max x.1.1.2 x.1.2)) = List.zipWith max iv1 iv2 := by
  induction mol generalizing iv1 iv2 with
  | nil =>
    cases iv1 with
    | nil => simp
    | cons v1 iv1 => simp at h1
  | cons a mol ih =>
    cases iv1 with
    | nil => simp at h1
    | cons v1 iv1 =>
      cases iv2 with
      | nil => simp at h2
      | cons v2 iv2 =>
        simp only [List.length_cons, List.replicate_succ, List.zip_cons_cons,
          List.map_cons, List.zipWith_cons_cons] at h1 h2 ⊢
        rw [ih iv1 iv2 (by omega) (by omega)]

/-- List-level rule of `_modify_ivary_list` for `resp_type='e'`: the merged
ivary list is the element-wise maximum of the two stage lists. -/
theorem modify_ivary_list_e_eq (mol : List Atom) (iv1 iv2 : List ℤ)
    (h1 : mol.length = iv1.length) (h2 : iv2.length = iv1.length) :
    modify_ivary_list "e" mol iv1 iv2 none = .ok (List.zipWith max iv1 iv2) := by
  have step : modify_ivary_list "e" mol iv1 iv2 none =
      ((((mol.zip iv1).zip iv2).zip
        (List.replicate mol.length (none : Option ℚ)))).mapM
        (fun x => modify_ivary_one "e" x.1.1.1.atomic_no x.1.1.2 x.1.2 x.2) :=
    rfl
  rw [step, mapM_ok_of_forall _ (fun x => max x.1.1.2 x.1.2)]
  · rw [zip_map_e_eq mol iv1 iv2 h1 h2]
  · rintro ⟨⟨⟨a, v1⟩, v2⟩, oc⟩ hx
    exact modify_ivary_one_e a v1 v2 oc

/-- C2: the equivalence resolver merges the two per-atom ivary stage values
with `max` (reference beats free beats frozen); every atom referenced by
others resolves to the arithmetic mean of its own input charge and the input
charges of all atoms referencing it; an unreferenced atom keeps its own
charge when its combined ivary is 0 and otherwise adopts the resolved value
of the atom it references (one indirection); and on the two worked examples
the resolver produces exactly the claimed charge lists. -/
theorem C2 (mol : List Atom) (iv1 iv2 ivary : List ℤ) (inp : List ℚ)
    (hm : mol.length = iv1.length) (h2 : iv2.length = iv1.length)
    (hiv : ivary = List.zipWith max iv1 iv2)
    (hinp : inp.length = ivary.length)
    (hval : ∀ e ∈ ivary, 0 ≤ e ∧ e ≤ (ivary.length : ℤ))
    (hflat : ∀ j : ℕ, ∀ r ∈ referrers ivary j,
      referrers ivary (r - 1).toNat = []) :
    (modify_ivary_list "e" mol iv1 iv2 none = .ok ivary) ∧
    (∃ out, equivalence_core ivary inp = .ok out ∧
      out.length = ivary.length ∧
      ∀ i k, ivary.get? i = some k →
        ((referrers ivary i ≠ [] →
          out.get? i = some (some (resolved_mean ivary inp i))) ∧
         (referrers ivary i = [] → k = 0 →
          out.get? i = some (some (inp.getD i 0))) ∧
         (referrers ivary i = [] → 0 < k →
          out.get? i = some (some (resolved_mean ivary inp (k - 1).toNat)) ∧
            referrers ivary (k - 1).toNat ≠ []))) ∧
    (equivalence_core [0, 1, 0] [2/10, 4/10, -1/10] =
      .ok [some (3/10), some (3/10), some (-1/10)]) ∧
    (equivalence_core [0, 1, 1] [0, 3/10, 9/10] =
      .ok [some (4/10), some (4/10), some (4/10)]) := by
  refine ⟨?_, ?_, ?_, ?_⟩
  · rw [modify_ivary_list_e_eq mol iv1 iv2 hm h2, hiv]
  · exact equivalence_core_spec ivary inp hinp hval hflat
  · norm_num +decide [equivalence_core, build_reffed_by, build_reffed_by_aux,
      pyGet, pySet, has_deep_reference, equivalence_avg, equivalence_fill,
      list_mean, List.enum, List.enumFrom, List.mapM.loop, except_bind_ok,
      List.isEmpty, pure, Except.pure, Int.toNat_ofNat,
      List.getElem_cons_zero, List.getElem_cons_succ,
      show Int.toNat 1 = 1 from rfl, show Int.toNat 2 = 2 from rfl,
      show Int.toNat 3 = 3 from rfl]
  · norm_num +decide [equivalence_core, build_reffed_by, build_reffed_by_aux,
      pyGet, pySet, has_deep_reference, equivalence_avg, equivalence_fill,
      list_mean, List.enum, List.enumFrom, List.mapM.loop, except_bind_ok,
      List.isEmpty, pure, Except.pure, Int.toNat_ofNat,
      List.getElem_cons_zero, List.getElem_cons_succ,
      show Int.toNat 1 = 1 from rfl, show Int.toNat 2 = 2 from rfl,
      show Int.toNat 3 = 3 from rfl]

/-- C2 witness: the theorem applied to a concrete reference-free three-atom
configuration (stage lists `[0,0,0]` and `[0,-1,0]`). -/
theorem C2_witness :
    modify_ivary_list "e"
      [⟨1, 6, "C", [], none⟩, ⟨2, 1, "H", [], none⟩, ⟨3, 1, "H", [], none⟩]
      [0, 0, 0] [0, -1, 0] none = .ok [0, 0, 0] ∧
    ∃ out, equivalence_core [0, 0, 0] [1/2, 1/3, 1/4] = .ok out := by
  have h := C2
    [⟨1, 6, "C", [], none⟩, ⟨2, 1, "H", [], none⟩, ⟨3, 1, "H", [], none⟩]
    [0, 0, 0] [0, -1, 0] [0, 0, 0] [1/2, 1/3, 1/4] rfl rfl (by decide) rfl
    (by decide)
    (fun j r hr => by
      have hv := referrers_from_mem_val hr
      simp at hv
      exact absurd hv (by omega))
  obtain ⟨out, hout, -⟩ := h.2.1
  exact ⟨h.1, out, hout⟩

/-- C6: any ivary configuration containing a depth-2 reference chain — an
atom appearing in some referenced-by list whose own referenced-by list is
nonempty — makes `equivalence` raise the not-implemented error instead of
producing resolved charges. -/
theorem C6 (ivary : List ℤ) (inp : List ℚ)
    (hval : ∀ e ∈ ivary, 0 ≤ e ∧ e ≤ (ivary.length : ℤ))
    (hchain : ∃ j : ℕ, ∃ r ∈ referrers ivary j,
      referrers ivary (r - 1).toNat ≠ []) :
    equivalence_core ivary inp = .error .notImplemented := by
  obtain ⟨rb, hbuild, hrblen, hrbget⟩ := build_reffed_by_spec ivary hval
  obtain ⟨j, r, hr, hne⟩ := hchain
  have hjlt : j < ivary.length := by
    have hv := referrers_from_mem_val hr
    have hb := hval _ hv
    omega
  have hb := referrers_from_mem_bounds (l := ivary) (i := 0) hr
  have hdeep : has_deep_reference rb = true := by
    rw [has_deep_reference, List.any_eq_true]
    refine ⟨referrers ivary j, ?_, ?_⟩
    · exact List.get?_mem (by rw [hrbget j, if_pos hjlt])
    · rw [List.any_eq_true]
      refine ⟨r, hr, ?_⟩
      have hpg : pyGet rb (r - 1) =
          some (referrers ivary (r - 1).toNat) := by
        rw [pyGet, if_pos (by omega)]
        have hlt2 : (r - 1).toNat < ivary.length := by omega
        rw [hrbget (r - 1).toNat, if_pos hlt2]
      rw [hpg]
      simpa [List.isEmpty_iff] using hne
  have step : equivalence_core ivary inp =
      (build_reffed_by ivary >>= fun rb2 =>
        if has_deep_reference rb2 then .error .notImplemented
        else equivalence_fill (equivalence_avg rb2 inp) ivary inp) := rfl
  rw [step, hbuild, except_bind_ok, hdeep]
  rfl

/-- C6 witness: the theorem applied to the chain in which atom 2 references
atom 1 and atom 3 references atom 2. -/
theorem C6_witness :
    equivalence_core [0, 1, 2] [0, 3/10, 9/10] = .error .notImplemented :=
  C6 [0, 1, 2] [0, 3/10, 9/10] (by decide)
    ⟨0, 2, by decide, by decide⟩

/-! ## C3: basin voting -/

/-- First index of the unique `true` entry: in a Boolean list with exactly
one `true`, `index(True)` is the position of that entry. -/
theorem indexOf_true_of_count_one (l : List Bool) (i : ℕ)
    (h1 : l.count true = 1) (h2 : l.get? i = some true) :
    l.indexOf true = i := by
  induction l generalizing i with
  | nil => simp at h2
  | cons a l ih =>
    cases a
    · rw [List.indexOf_cons]
      cases i with
      | zero => simp at h2
      | succ j =>
        have hc : l.count true = 1 := by simpa [List.count_cons] using h1
        have hj := ih j hc (by simpa using h2)
        simp [hj]
    · have hc : l.count true = 0 := by
        have := h1
        simp [List.count_cons] at this
        omega
      cases i with
      | zero => simp [List.indexOf_cons]
      | succ j =>
        exfalso
        have hmem : true ∈ l := List.get?_mem (by simpa using h2)
        exact absurd hmem (List.count_eq_zero.1 hc)

/-- C3: the basin voting loop labels every point with the index of the
unique truthy source field plus one; a point with no truthy source raises
the unassigned-point input-format error, and a point with several truthy
sources raises the inconsistent-assignment input-format error; on the
worked 3-field, 2-point example point A (truthy only in field 1) votes to
label 1 while point B (truthy in fields 1 and 2) makes the derivation raise
the inconsistent-assignment error. -/
theorem C3 (point : List ℚ) (i : ℕ) (fields : List (List ℚ)) :
    ((point.map truthy).count true = 0 →
      vote_point point = .error .unassignedPoint) ∧
    (1 < (point.map truthy).count true →
      vote_point point = .error .manyAtomsPoint) ∧
    ((point.map truthy).count true = 1 →
      (point.map truthy).get? i = some true →
      vote_point point = .ok (i + 1)) ∧
    ((∀ p ∈ py_zip_all fields, (p.map truthy).count true = 1) →
      extract_qtaim_basins_vote fields =
        .ok ((py_zip_all fields).map
          (fun p => (p.map truthy).indexOf true + 1))) ∧
    (py_zip_all [[1, 1], [0, 1], [0, 0]] = [[1, 0, 0], [1, 1, 0]]) ∧
    (vote_point [1, 0, 0] = .ok 1) ∧
    (extract_qtaim_basins_vote [[1, 1], [0, 1], [0, 0]] =
      .error .manyAtomsPoint) := by
  refine ⟨?_, ?_, ?_, ?_, by decide, by decide, by decide⟩
  · intro h
    simp [vote_point, h]
  · intro h
    have h0 : ¬ ((point.map truthy).count true = 0) := by omega
    simp only [vote_point, if_neg h0, if_pos h]
  · intro h1 h2
    have h0 : ¬ ((point.map truthy).count true = 0) := by omega
    have hlt : ¬ (1 < (point.map truthy).count true) := by omega
    simp only [vote_point, if_neg h0, if_neg hlt]
    rw [indexOf_true_of_count_one _ i h1 h2]
  · intro hall
    apply mapM_ok_of_forall
    intro p hp
    have h1 := hall p hp
    have h0 : ¬ ((p.map truthy).count true = 0) := by omega
    have hlt : ¬ (1 < (p.map truthy).count true) := by omega
    simp only [vote_point, if_neg h0, if_neg hlt]

/-- C3 witness: the theorem applied to concrete points and a concrete pair
of well-assigned fields. -/
theorem C3_witness :
    vote_point [0, 0] = .error .unassignedPoint ∧
    vote_point [2, 3] = .error .manyAtomsPoint ∧
    vote_point [0, 5, 0] = .ok 2 ∧
    extract_qtaim_basins_vote [[1, 0], [0, 1]] = .ok [1, 2] := by
  refine ⟨(C3 [0, 0] 0 []).1 (by decide),
    (C3 [2, 3] 0 []).2.1 (by decide),
    (C3 [0, 5, 0] 1 []).2.2.1 (by decide) (by decide), ?_⟩
  have h := (C3 [] 0 [[1, 0], [0, 1]]).2.2.2.1 (by decide)
  rw [h]
  decide

/-! ## C5: row label and identity validation -/

/-- C5: the extraction loop checks the parsed label against `i+1` (raising
the atom-ordering format error and aborting before further rows are read)
and the parsed symbol against the atom's identity; but the identity-mismatch
message reports atom `int(label) + 1`, one past the mismatched atom: with a
single carbon atom and the row `'     1  N   -0.123456'`, the mismatch is at
atom 1 yet the error names atom 2.  The third conjunct pins the off-by-one:
the reported number differs from the 1-based position of the mismatched
atom. -/
theorem C5_bug_eval :
    (get_charges_aux "mulliken" "log"
      [⟨1, 6, "C", [], none⟩, ⟨2, 1, "H", [], none⟩] 0
      ["     2  C   -0.1\n", "     1  H    0.1\n"] [] =
      .error .chargesNotInOrder) ∧
    (get_charges_from_lines "mulliken" ["     1  N   -0.123456\n", " Sum of \n"]
      "log" [⟨1, 6, "C", [], none⟩] =
      .error (.identityMismatch 2 "C" "N")) ∧
    (2 : ℤ) ≠ 1 := by
  refine ⟨by decide, by decide, by decide⟩

/-! ## C4: the ESP charge-block locator -/

/-- C4: for an ESP-like charge type the locator records the byte offset
after every generic ESP header line and, separately, the variant tag of
every ESP marker line; it errors with the unrecognized-type format error on
a header/marker count mismatch, with the distinct charge-type-not-found
format error when the variant filter leaves no offset, and with the
re-raised `IndexError` when the requested occurrence is out of range of the
filtered list; and when the scan recorded exactly two header offsets of
which exactly one carries the requested variant, the default occurrence -1
positions the stream at that variant's offset regardless of the block
order. -/
theorem C4 (ct : String) (hct : ct = "mk" ∨ ct = "chelp" ∨ ct = "chelpg")
    (lines : List String) (occ : ℤ) (o1 o2 : ℕ) (t1 t2 : String)
    (st st0 : LogScanState) (line tag : String)
    (hst : goto_in_log_scan ct " ESP charges:" lines = st) :
    (pyRstrip (pyRstripNl line) = " ESP charges:" →
      (goto_in_log_step ct " ESP charges:" st0 line).result =
        st0.result ++ [st0.offset + line.length]) ∧
    (esp_type_in_log.lookup (pyRstripNl line) = some tag →
      (goto_in_log_step ct " ESP charges:" st0 line).esp_types =
        st0.esp_types ++ [tag]) ∧
    (st.esp_types.length ≠ st.result.length →
      goto_in_log ct lines occ = .error .espTypeNotRecognized) ∧
    (st.esp_types.length = st.result.length →
      ((st.result.zip st.esp_types).filter
        (fun p => p.2 = ct)).map Prod.fst = [] →
      goto_in_log ct lines occ = .error (.chargeTypeNotFound ct)) ∧
    (∀ filtered : List ℕ, st.esp_types.length = st.result.length →
      ((st.result.zip st.esp_types).filter
        (fun p => p.2 = ct)).map Prod.fst = filtered →
      filtered ≠ [] → pyGet filtered occ = none →
      goto_in_log ct lines occ = .error .indexError) ∧
    (st.result = [o1, o2] → st.esp_types = [t1, t2] →
      ((t1 = ct → t2 ≠ ct → goto_in_log ct lines (-1) = .ok (o1, 1)) ∧
       (t1 ≠ ct → t2 = ct → goto_in_log ct lines (-1) = .ok (o2, 1)))) ∧
    (ChargesErr.indexError ≠ ChargesErr.chargeTypeNotFound ct) := by
  subst hst
  have hdr : charge_section_header_in_log ct = .ok " ESP charges:" := by
    rcases hct with rfl | rfl | rfl <;> rfl
  have hmem : esp_charges.contains ct = true := by
    rcases hct with rfl | rfl | rfl <;> rfl
  have hnbo : ¬ (ct = "nbo") := by
    rcases hct with rfl | rfl | rfl <;> decide
  have hnf : ¬ (ChargesErr.indexError = ChargesErr.chargeTypeNotFound ct) := by
    intro hcon
    exact ChargesErr.noConfusion hcon
  refine ⟨?_, ?_, ?_, ?_, ?_, ?_, hnf⟩
  · intro h
    simp [goto_in_log_step, h]
  · intro h
    simp [goto_in_log_step, hmem, h]
    rcases hct with rfl | rfl | rfl <;> decide
  · intro hne
    simp only [goto_in_log, hdr, except_bind_ok, hmem, if_true]
    rw [if_pos hne, except_bind_error]
  · intro heq hfil
    simp only [goto_in_log, hdr, except_bind_ok, hmem, if_true]
    rw [if_neg (by omega), except_pure_bind, hfil, if_pos rfl]
  · intro filtered heq hfil hne hidx
    simp only [goto_in_log, hdr, except_bind_ok, hmem, if_true]
    rw [if_neg (by omega), except_pure_bind, hfil, if_neg hne, hidx]
  · intro hres htypes
    have hlen : ¬ ((goto_in_log_scan ct " ESP charges:" lines).esp_types.length ≠
        (goto_in_log_scan ct " ESP charges:" lines).result.length) := by
      rw [hres, htypes]
      simp
    constructor
    · intro h1 h2
      subst h1
      simp only [goto_in_log, hdr, except_bind_ok, hmem, if_true]
      rw [if_neg hlen, except_pure_bind, hres, htypes]
      simp +decide [h2, pyGet, hnbo, pure, Except.pure]
    · intro h1 h2
      subst h2
      simp only [goto_in_log, hdr, except_bind_ok, hmem, if_true]
      rw [if_neg hlen, except_pure_bind, hres, htypes]
      simp +decide [h1, pyGet, hnbo, pure, Except.pure]

/-- C4 witness: the theorem applied to concrete two-block log files in both
orders (requesting `"mk"` selects the Merz-Kollman block's offset either
way), to a file whose ESP header lacks a variant marker, to a file carrying
only a CHELPG block, and to an out-of-range occurrence request. -/
theorem C4_witness :
    goto_in_log "mk" [" Merz-Kollman atomic radii used.\n", " ESP charges:\n",
      "x\n", " Breneman (CHELPG) radii used.\n", " ESP charges:\n", "y\n"]
      (-1) = .ok (47, 1) ∧
    goto_in_log "mk" [" Breneman (CHELPG) radii used.\n", " ESP charges:\n",
      "x\n", " Merz-Kollman atomic radii used.\n", " ESP charges:\n", "y\n"]
      (-1) = .ok (94, 1) ∧
    goto_in_log "mk" [" ESP charges:\n"] (-1) =
      .error .espTypeNotRecognized ∧
    goto_in_log "mk" [" Breneman (CHELPG) radii used.\n", " ESP charges:\n"]
      (-1) = .error (.chargeTypeNotFound "mk") ∧
    goto_in_log "mk" [" Merz-Kollman atomic radii used.\n", " ESP charges:\n"]
      (-5) = .error .indexError := by
  refine ⟨?_, ?_, ?_, ?_, ?_⟩
  · exact ((C4 "mk" (Or.inl rfl)
      [" Merz-Kollman atomic radii used.\n", " ESP charges:\n", "x\n",
        " Breneman (CHELPG) radii used.\n", " ESP charges:\n", "y\n"]
      (-1) 47 94 "mk" "chelpg" _ ⟨0, [], []⟩ "" ""
      rfl).2.2.2.2.2.1 (by decide) (by decide)).1 rfl (by decide)
  · exact ((C4 "mk" (Or.inl rfl)
      [" Breneman (CHELPG) radii used.\n", " ESP charges:\n", "x\n",
        " Merz-Kollman atomic radii used.\n", " ESP charges:\n", "y\n"]
      (-1) 45 94 "chelpg" "mk" _ ⟨0, [], []⟩ "" ""
      rfl).2.2.2.2.2.1 (by decide) (by decide)).2 (by decide) rfl
  · exact (C4 "mk" (Or.inl rfl) [" ESP charges:\n"] (-1) 0 0 "" "" _
      ⟨0, [], []⟩ "" "" rfl).2.2.1 (by decide)
  · exact (C4 "mk" (Or.inl rfl)
      [" Breneman (CHELPG) radii used.\n", " ESP charges:\n"] (-1) 0 0 "" ""
      _ ⟨0, [], []⟩ "" "" rfl).2.2.2.1 (by decide) (by decide)
  · exact (C4 "mk" (Or.inl rfl)
      [" Merz-Kollman atomic radii used.\n", " ESP charges:\n"] (-5) 0 0 ""
      "" _ ⟨0, [], []⟩ "" "" rfl).2.2.2.2.1 [47] (by decide) (by decide)
      (by decide) (by decide)

/-! ## C8: cube write / re-parse round trip -/

/-- Half-ulp accuracy of the six-decimal fixed-point rendering. -/
theorem fmtFix6_close (q : ℚ) : |fmtFix6 q - q| ≤ 1 / (2 * 10 ^ 6) := by
  rw [fmtFix6]
  have h6 : (0 : ℚ) < 10 ^ 6 := by norm_num
  have hrw : (round (q * 10 ^ 6) : ℚ) / 10 ^ 6 - q =
      ((round (q * 10 ^ 6) : ℚ) - q * 10 ^ 6) / 10 ^ 6 := by
    field_simp
    ring
  rw [hrw, abs_div, abs_of_pos h6]
  have h : |(round (q * 10 ^ 6) : ℚ) - q * 10 ^ 6| ≤ 1 / 2 := by
    rw [abs_sub_comm]
    exact abs_sub_round (q * 10 ^ 6)
  calc |(round (q * 10 ^ 6) : ℚ) - q * 10 ^ 6| / 10 ^ 6
      ≤ (1 / 2) / 10 ^ 6 := by gcongr
    _ = 1 / (2 * 10 ^ 6) := by ring

/-- The conversion constant is positive. -/
theorem angstrom_per_bohr_pos : (0 : ℚ) < angstrom_per_bohr := by
  norm_num [angstrom_per_bohr]

/-- Unit-divide, render with six decimals, re-parse and unit-multiply: the
result is within half an ulp of the original, scaled by the unit. -/
theorem roundtrip_fix6 (v : ℚ) :
    |angstrom_per_bohr * fmtFix6 (v / angstrom_per_bohr) - v| ≤
      angstrom_per_bohr / (2 * 10 ^ 6) := by
  have hc := angstrom_per_bohr_pos
  have h := fmtFix6_close (v / angstrom_per_bohr)
  have hrw : angstrom_per_bohr * fmtFix6 (v / angstrom_per_bohr) - v =
      angstrom_per_bohr *
        (fmtFix6 (v / angstrom_per_bohr) - v / angstrom_per_bohr) := by
    field_simp
    ring
  rw [hrw, abs_mul, abs_of_pos hc]
  calc angstrom_per_bohr * |fmtFix6 (v / angstrom_per_bohr) -
        v / angstrom_per_bohr|
      ≤ angstrom_per_bohr * (1 / (2 * 10 ^ 6)) := by gcongr
    _ = angstrom_per_bohr / (2 * 10 ^ 6) := by ring

/-- Relative half-ulp accuracy of the scientific rendering, at a positive
magnitude. -/
theorem fmtSci5_mag_close (a : ℚ) (ha0 : 0 < a) :
    |(round (a / (10 : ℚ) ^ (Int.log 10 a) * 10 ^ 5) : ℚ) / 10 ^ 5 *
      (10 : ℚ) ^ (Int.log 10 a) - a| ≤ a / (2 * 10 ^ 5) := by
  set e : ℤ := Int.log 10 a with he
  have hple : (10 : ℚ) ^ e ≤ a := Int.zpow_log_le_self (by norm_num) ha0
  have hppos : (0 : ℚ) < (10 : ℚ) ^ e := zpow_pos (by norm_num) e
  have h1 : (round (a / (10 : ℚ) ^ e * 10 ^ 5) : ℚ) / 10 ^ 5 *
      (10 : ℚ) ^ e - a =
      ((round (a / (10 : ℚ) ^ e * 10 ^ 5) : ℚ) - a / (10 : ℚ) ^ e * 10 ^ 5) *
        ((10 : ℚ) ^ e / 10 ^ 5) := by
    field_simp
    ring
  have hpq : (0 : ℚ) < (10 : ℚ) ^ e / 10 ^ 5 := by
    apply div_pos hppos
    norm_num
  rw [h1, abs_mul, abs_of_pos hpq]
  have h2 : |(round (a / (10 : ℚ) ^ e * 10 ^ 5) : ℚ) -
      a / (10 : ℚ) ^ e * 10 ^ 5| ≤ 1 / 2 := by
    rw [abs_sub_comm]
    exact abs_sub_round (a / (10 : ℚ) ^ e * 10 ^ 5)
  calc |(round (a / (10 : ℚ) ^ e * 10 ^ 5) : ℚ) - a / (10 : ℚ) ^ e * 10 ^ 5| *
        ((10 : ℚ) ^ e / 10 ^ 5)
      ≤ (1 / 2) * ((10 : ℚ) ^ e / 10 ^ 5) := by gcongr
    _ = (10 : ℚ) ^ e / (2 * 10 ^ 5) := by ring
    _ ≤ a / (2 * 10 ^ 5) := by gcongr

/-- Relative half-ulp accuracy of the `'{0: .5E}'` rendering. -/
theorem fmtSci5_close (q : ℚ) : |fmtSci5 q - q| ≤ |q| / (2 * 10 ^ 5) := by
  by_cases h0 : q = 0
  · simp [h0, fmtSci5]
  · rw [fmtSci5, if_neg h0]
    by_cases hneg : q < 0
    · rw [if_pos hneg]
      have ha : |q| = -q := abs_of_neg hneg
      have hmag := fmtSci5_mag_close |q| (abs_pos.2 h0)
      have hrw : -((round (|q| / (10 : ℚ) ^ (Int.log 10 |q|) * 10 ^ 5) : ℚ) /
          10 ^ 5 * (10 : ℚ) ^ (Int.log 10 |q|)) - q =
          -((round (|q| / (10 : ℚ) ^ (Int.log 10 |q|) * 10 ^ 5) : ℚ) /
            10 ^ 5 * (10 : ℚ) ^ (Int.log 10 |q|) - |q|) := by
        rw [ha]; ring
      rw [hrw, abs_neg]
      exact hmag
    · rw [if_neg hneg]
      have ha : |q| = q := abs_of_nonneg (le_of_not_lt hneg)
      have hmag := fmtSci5_mag_close |q| (abs_pos.2 h0)
      rw [ha] at hmag
      rw [ha]
      exact hmag

/-- The fixed-point rendering of zero is zero (the off-diagonal interval
components written by `write_cube` for an aligned grid). -/
theorem fmtFix6_zero_div : fmtFix6 (0 / angstrom_per_bohr) = 0 := by
  norm_num [fmtFix6]

/-- Componentwise closeness of a mapped list under a uniform bound, through
`getD`. -/
theorem map_getD_close (cs : List ℚ) (f : ℚ → ℚ) (B : ℚ) (hB : 0 ≤ B)
    (hf : ∀ c, |f c - c| ≤ B) (k : ℕ) :
    |(cs.map f).getD k 0 - cs.getD k 0| ≤ B := by
  rw [List.getD_eq_get?, List.getD_eq_get?, List.get?_map]
  cases cs.get? k with
  | none => simpa using hB
  | some c => simpa using hf c

/-- Componentwise relative closeness of the scientifically rendered value
array, through `getD`. -/
theorem map_getD_close_sci (cs : List ℚ) (k : ℕ) :
    |(cs.map fmtSci5).getD k 0 - cs.getD k 0| ≤
      |cs.getD k 0| / (2 * 10 ^ 5) := by
  rw [List.getD_eq_get?, List.getD_eq_get?, List.get?_map]
  cases cs.get? k with
  | none => simp
  | some c => simpa using fmtSci5_close c

/-! ## C8: write/parse round trip -/

/-- The fixed-point rendering of zero is zero. -/
theorem fmtFix6_zero : fmtFix6 0 = 0 := by
  norm_num [fmtFix6]

/-- The first 18 characters of the title line written by `write_cube` never
match an entry of `title_to_type`, whatever the field type. -/
theorem title2_take18 (ft : String) :
    String.mk ((" Cube file for field of type " ++ ft ++ ".").toList.take 18) =
      " Cube file for fie" := by
  have h1 : (" Cube file for field of type " ++ ft ++ ".").toList =
      " Cube file for field of type ".toList ++ (ft.toList ++ ".".toList) := by
    cases ft with
    | mk data => rfl
  rw [h1, List.take_append_of_le_length (by decide)]
  decide

/-- `Grid.__init__` on three diagonal geometry rows with bohr input: every
interval is multiplied by the unit and the grid is aligned. -/
theorem mkGrid_bohr_aligned (p1 p2 p3 : ℤ) (d1 d2 d3 : ℚ) :
    mkGrid [[(p1 : ℚ), d1, 0, 0], [(p2 : ℚ), 0, d2, 0], [(p3 : ℚ), 0, 0, d3]]
      true =
      .ok { axes := [⟨p1, [d1 * angstrom_per_bohr, 0, 0], d1 * angstrom_per_bohr⟩,
                     ⟨p2, [0, d2 * angstrom_per_bohr, 0], d2 * angstrom_per_bohr⟩,
                     ⟨p3, [0, 0, d3 * angstrom_per_bohr], d3 * angstrom_per_bohr⟩],
            aligned_to_coord := true,
            dir_intervals := [d1 * angstrom_per_bohr, d2 * angstrom_per_bohr,
              d3 * angstrom_per_bohr],
            points_on_axes := [p1, p2, p3],
            origin_coords := [] } := by
  have hax : add_axes true 0 [[(p1 : ℚ), d1, 0, 0], [(p2 : ℚ), 0, d2, 0],
      [(p3 : ℚ), 0, 0, d3]] =
      .ok ([⟨p1, [d1 * angstrom_per_bohr, 0, 0], d1 * angstrom_per_bohr⟩,
            ⟨p2, [0, d2 * angstrom_per_bohr, 0], d2 * angstrom_per_bohr⟩,
            ⟨p3, [0, 0, d3 * angstrom_per_bohr], d3 * angstrom_per_bohr⟩],
        true) := by
    simp [add_axes, add_axis, set_point_count, set_intervals, Rat.den_intCast,
      Rat.num_intCast, except_bind_ok, pure, Except.pure, mul_zero, zero_mul]
  rw [mkGrid]
  rw [if_pos (by refine ⟨rfl, ?_⟩; intro row hrow; fin_cases hrow <;> rfl)]
  rw [hax, except_bind_ok]
  rfl

/-- `write_cube` with `charge_type=None` and bohr output succeeds on any
molecule whose atoms all carry coordinates, and emits exactly the token
rows of `write_atom_row`. -/
theorem write_cube_ok (grid : Grid) (values : List ℚ) (ft : String)
    (molecule : List Atom)
    (hmol : ∀ a ∈ molecule, ∃ cs, a.coords = some cs) :
    write_cube grid values ft molecule none true = .ok
      { title1 := " Cube file generated by repESP."
        title2 := " Cube file for field of type " ++ ft ++ "."
        atom_count := (molecule.length : ℤ)
        origin := grid.origin_coords.map (fun c =>
          fmtFix6 (c / angstrom_per_bohr))
        nval := 1
        axes := grid.axes.map (fun a => (a.point_count,
          a.intervals.map (fun c => fmtFix6 (c / angstrom_per_bohr))))
        atoms := molecule.map write_atom_row
        values := values.map fmtSci5 } := by
  simp only [write_cube]
  have key : ∀ (F : Atom → Except WriteErr (ℤ × ℚ × List ℚ))
      (K : List (ℤ × ℚ × List ℚ) → CubeTokens),
      (∀ a ∈ molecule, F a = .ok (write_atom_row a)) →
      ((molecule.mapM F) >>= fun atoms => pure (K atoms)) =
        .ok (K (molecule.map write_atom_row)) := by
    intro F K hF
    rw [mapM_ok_of_forall F _ molecule hF, except_bind_ok]
    rfl
  apply key
  intro a ha
  obtain ⟨cs, hcs⟩ := hmol a ha
  simp [hcs, write_atom_row, pure, Except.pure, except_bind_ok]

/-- `Cube.__init__` on the tokens `write_cube` emits for an aligned grid:
the parse succeeds, the point counts survive exactly, and every interval,
origin component and atom coordinate comes back in round-trip form. -/
theorem parse_written_cube (p1 p2 p3 : ℤ) (d1 d2 d3 o1 o2 o3 : ℚ)
    (molecule : List Atom) (values : List ℚ) (ft : String)
    (hvals : (values.length : ℤ) = p1 * (p2 * (p3 * 1))) :
    parse_cube
      { title1 := " Cube file generated by repESP.",
        title2 := " Cube file for field of type " ++ ft ++ ".",
        atom_count := (molecule.length : ℤ),
        origin := [o1, o2, o3].map (fun c => fmtFix6 (c / angstrom_per_bohr)),
        nval := 1,
        axes := [(p1, [fmtFix6 (d1 / angstrom_per_bohr),
                   fmtFix6 (0 / angstrom_per_bohr),
                   fmtFix6 (0 / angstrom_per_bohr)]),
                 (p2, [fmtFix6 (0 / angstrom_per_bohr),
                   fmtFix6 (d2 / angstrom_per_bohr),
                   fmtFix6 (0 / angstrom_per_bohr)]),
                 (p3, [fmtFix6 (0 / angstrom_per_bohr),
                   fmtFix6 (0 / angstrom_per_bohr),
                   fmtFix6 (d3 / angstrom_per_bohr)])],
        atoms := molecule.map write_atom_row,
        values := values.map fmtSci5 } true =
    .ok
      { cube_type := "unrecognized",
        atom_count := (molecule.length : ℤ),
        grid :=
          { axes := [⟨p1, [conv_interval_rt d1, 0, 0], conv_interval_rt d1⟩,
              ⟨p2, [0, conv_interval_rt d2, 0], conv_interval_rt d2⟩,
              ⟨p3, [0, 0, conv_interval_rt d3], conv_interval_rt d3⟩],
            aligned_to_coord := true,
            dir_intervals := [conv_interval_rt d1, conv_interval_rt d2,
              conv_interval_rt d3],
            points_on_axes := [p1, p2, p3],
            origin_coords := [o1, o2, o3].map conv_coord_rt },
        molecule := (molecule.map write_atom_row).enum.map parse_atom_row,
        values := values.map fmtSci5 } := by
  have hmapm : ((molecule.map write_atom_row).enum).mapM (fun x =>
      match mkAtom ((x.1 : ℤ) + 1) x.2.1 (some x.2.2.2) (some true) with
      | .ok a => Except.ok { a with charges := [("cube", x.2.2.1)] }
      | .error _ => Except.error CubeErr.inputFormat) =
      .ok (((molecule.map write_atom_row).enum).map parse_atom_row) :=
    mapM_ok_of_forall _ parse_atom_row _ (fun x hx => rfl)
  have hmapm2 : List.mapM.loop (fun x =>
      match mkAtom ((x.1 : ℤ) + 1) x.2.1 (some x.2.2.2) (some true) with
      | .ok a => Except.ok { a with charges := [("cube", x.2.2.1)] }
      | .error _ => Except.error CubeErr.inputFormat)
      ((molecule.map write_atom_row).enum) [] =
      .ok (((molecule.map write_atom_row).enum).map parse_atom_row) := hmapm
  simp only [parse_cube, title2_take18, zero_div, fmtFix6_zero,
    mkGrid_bohr_aligned, except_bind_ok, except_pure_bind, hmapm, hmapm2,
    not_true, if_false, ite_false, if_true, ite_true,
    List.length_map, List.prod_cons, List.prod_nil, hvals,
    conv_interval_rt, conv_coord_rt, pure, Except.pure, ne_eq,
    List.length_cons, List.length_nil, List.map_cons, List.map_nil,
    show (List.lookup " Cube file for fie" title_to_type).getD
      "unrecognized" = "unrecognized" from by decide]

/-- The interval round trip moves a value by at most half an output ulp,
scaled by the unit. -/
theorem conv_interval_rt_close (v : ℚ) :
    |conv_interval_rt v - v| ≤ angstrom_per_bohr / (2 * 10 ^ 6) := by
  rw [show conv_interval_rt v =
    angstrom_per_bohr * fmtFix6 (v / angstrom_per_bohr) from mul_comm _ _]
  exact roundtrip_fix6 v

/-- The coordinate round trip moves a value by at most half an output ulp,
scaled by the unit. -/
theorem conv_coord_rt_close (v : ℚ) :
    |conv_coord_rt v - v| ≤ angstrom_per_bohr / (2 * 10 ^ 6) :=
  roundtrip_fix6 v

/-- C8: writing a field on an aligned grid with `write_cube` and re-parsing
the written tokens with `Cube.__init__` succeeds and reproduces the grid
geometry — the point counts exactly, each direction interval and origin
component to within half a ulp of the six-decimal output format scaled by
the bohr unit — the atomic numbers exactly, each atom coordinate to the
same tolerance, and each field value to within half a ulp of the
five-decimal scientific format relative to its magnitude. -/
theorem C8 (p1 p2 p3 : ℤ) (d1 d2 d3 o1 o2 o3 : ℚ)
    (molecule : List Atom) (values : List ℚ) (ft : String)
    (hmol : ∀ a ∈ molecule, ∃ cs, a.coords = some cs)
    (hvals : (values.length : ℤ) = p1 * (p2 * (p3 * 1))) :
    ∃ t parsed,
      write_cube
        { axes := [⟨p1, [d1, 0, 0], d1⟩, ⟨p2, [0, d2, 0], d2⟩,
            ⟨p3, [0, 0, d3], d3⟩],
          aligned_to_coord := true, dir_intervals := [d1, d2, d3],
          points_on_axes := [p1, p2, p3], origin_coords := [o1, o2, o3] }
        values ft molecule none true = .ok t ∧
      parse_cube t true = .ok parsed ∧
      parsed.grid.points_on_axes = [p1, p2, p3] ∧
      parsed.grid.aligned_to_coord = true ∧
      (∀ k, |parsed.grid.dir_intervals.getD k 0 - [d1, d2, d3].getD k 0| ≤
        angstrom_per_bohr / (2 * 10 ^ 6)) ∧
      (∀ k, |parsed.grid.origin_coords.getD k 0 - [o1, o2, o3].getD k 0| ≤
        angstrom_per_bohr / (2 * 10 ^ 6)) ∧
      parsed.molecule.length = molecule.length ∧
      (∀ i a, molecule.get? i = some a →
        ∃ b, parsed.molecule.get? i = some b ∧ b.atomic_no = a.atomic_no ∧
          ∀ k, |(b.coords.getD []).getD k 0 - (a.coords.getD []).getD k 0| ≤
            angstrom_per_bohr / (2 * 10 ^ 6)) ∧
      parsed.values.length = values.length ∧
      (∀ k, |parsed.values.getD k 0 - values.getD k 0| ≤
        |values.getD k 0| / (2 * 10 ^ 5)) := by
  have hBnn : (0 : ℚ) ≤ angstrom_per_bohr / (2 * 10 ^ 6) :=
    le_of_lt (div_pos angstrom_per_bohr_pos (by norm_num))
  refine ⟨_, _,
    write_cube_ok _ values ft molecule hmol,
    parse_written_cube p1 p2 p3 d1 d2 d3 o1 o2 o3 molecule values ft hvals,
    rfl, rfl, ?_, ?_, ?_, ?_, ?_, ?_⟩
  · intro k
    exact map_getD_close [d1, d2, d3] conv_interval_rt _ hBnn
      (fun c => conv_interval_rt_close c) k
  · intro k
    exact map_getD_close [o1, o2, o3] conv_coord_rt _ hBnn
      (fun c => conv_coord_rt_close c) k
  · simp [List.enum_length]
  · intro i a ha
    refine ⟨parse_atom_row (i, write_atom_row a), ?_, rfl, ?_⟩
    · rw [enum_map_get, List.get?_map, ha]
      rfl
    · intro k
      have h := map_getD_close (a.coords.getD [])
        (fun c => angstrom_per_bohr * fmtFix6 (c / angstrom_per_bohr))
        (angstrom_per_bohr / (2 * 10 ^ 6)) hBnn
        (fun c => roundtrip_fix6 c) k
      simp only [parse_atom_row, write_atom_row, Option.getD_some,
        List.map_map, Function.comp]
      exact h
  · simp
  · intro k
    exact map_getD_close_sci values k

/-- C8 witness: the theorem applied to a one-point grid with unit spacing,
a single hydrogen atom at the origin, and the single field value 1. -/
theorem C8_witness :
    ∃ t parsed,
      write_cube
        { axes := [⟨1, [1, 0, 0], 1⟩, ⟨1, [0, 1, 0], 1⟩, ⟨1, [0, 0, 1], 1⟩],
          aligned_to_coord := true, dir_intervals := [1, 1, 1],
          points_on_axes := [1, 1, 1], origin_coords := [1, 1, 1] }
        [1] "esp" [⟨1, 1, "H", [], some [0, 0, 0]⟩] none true = .ok t ∧
      parse_cube t true = .ok parsed ∧
      parsed.grid.points_on_axes = [1, 1, 1] ∧
      parsed.grid.aligned_to_coord = true ∧
      (∀ k, |parsed.grid.dir_intervals.getD k 0 -
          [(1 : ℚ), 1, 1].getD k 0| ≤ angstrom_per_bohr / (2 * 10 ^ 6)) ∧
      (∀ k, |parsed.grid.origin_coords.getD k 0 -
          [(1 : ℚ), 1, 1].getD k 0| ≤ angstrom_per_bohr / (2 * 10 ^ 6)) ∧
      parsed.molecule.length =
        ([⟨1, 1, "H", [], some [0, 0, 0]⟩] : List Atom).length ∧
      (∀ i a, ([⟨1, 1, "H", [], some [0, 0, 0]⟩] : List Atom).get? i =
          some a →
        ∃ b, parsed.molecule.get? i = some b ∧ b.atomic_no = a.atomic_no ∧
          ∀ k, |(b.coords.getD []).getD k 0 - (a.coords.getD []).getD k 0| ≤
            angstrom_per_bohr / (2 * 10 ^ 6)) ∧
      parsed.values.length = ([(1 : ℚ)] : List ℚ).length ∧
      (∀ k, |parsed.values.getD k 0 - ([(1 : ℚ)] : List ℚ).getD k 0| ≤
        |([(1 : ℚ)] : List ℚ).getD k 0| / (2 * 10 ^ 5)) :=
  C8 1 1 1 1 1 1 1 1 1 [⟨1, 1, "H", [], some [0, 0, 0]⟩] [1] "esp"
    (fun a ha => by
      rw [List.mem_singleton] at ha
      subst ha
      exact ⟨[0, 0, 0], rfl⟩)
    (by decide)

end RepESP
